import Mathlib

/-!
# yekeh: pool protocol message model and Nvidia mining backend

A shallow embedding of `src/Types/PoolMessage.h` (the `from_json` decoders of
`PoolError`, `Job`, `PoolMessage` and `LoginMessage`) and of
`src/Backend/Nvidia/Nvidia.cpp` (the constructor, `start`, `stop`, `setNewJob`,
`getNvidiaMiningAlgorithm` and the per-device worker `Nvidia::hash`), with the
properties of the specification stated and proved over them.

Conventions.
* `std::string` is `String`; `uint32_t`, `uint64_t`, `uint8_t` are `Nat` with an
  explicit reduction modulo `2^32`, `2^64`, `2^8` wherever the C++ arithmetic
  can wrap; `int32_t` is `Int`.
* A C++ function that can throw returns `Except`; the decoders are the
  `from_json` overloads as run by `json::get<T>()`, i.e. on a value-initialised
  target object.
* JSON documents are the values of `nlohmann::json` whose numbers are integers
  (`number_integer` / `number_unsigned`); floating point numbers are outside
  the model.
-/

namespace Types

deriving instance DecidableEq for Except

/-! ## JSON documents and the library calls the decoders make -/

/-- The exceptions the decoders can raise: the two `nlohmann::json` exceptions
`out_of_range` (a key that `at` does not find) and `type_error` (a value of the
wrong JSON type), and the two `std::stoull` exceptions. -/
inductive DecodeError where
  | json_out_of_range
  | json_type_error
  | invalid_argument
  | out_of_range
  deriving DecidableEq, Repr

/-- A JSON value. An object is its list of members; `at` and `find` look a key
up from the front. -/
inductive Json where
  | null
  | bool (b : Bool)
  | num (n : Int)
  | str (s : String)
  | arr (xs : List Json)
  | obj (members : List (String × Json))

/-- The member stored under `key`, when `j` is an object that has one. -/
def Json.find (j : Json) (key : String) : Option Json :=
  match j with
  | .obj members => members.lookup key
  | _ => none

/-- `j.find(key) != j.end()`. -/
def Json.contains (j : Json) (key : String) : Bool :=
  (j.find key).isSome

/-- `j.at(key)`: a `type_error` when `j` is not an object, `out_of_range` when
the key is missing. -/
def Json.atKey (j : Json) (key : String) : Except DecodeError Json :=
  match j with
  | .obj members =>
    match members.lookup key with
    | some v => .ok v
    | none => .error .json_out_of_range
  | _ => .error .json_type_error

/-- `j.is_null()`. -/
def Json.is_null : Json → Bool
  | .null => true
  | _ => false

/-- `j.get<std::string>()`. -/
def Json.get_string : Json → Except DecodeError String
  | .str s => .ok s
  | _ => .error .json_type_error

/-- `static_cast<int32_t>` of an integer: reduction modulo `2^32` into
`[-2^31, 2^31)`. -/
def toInt32 (n : Int) : Int :=
  (n + 2147483648) % 4294967296 - 2147483648

/-- `j.get<int32_t>()`: a number is converted with `static_cast` (no range
check), a boolean counts as `0` or `1`, anything else is a `type_error`. -/
def Json.get_int32 : Json → Except DecodeError Int
  | .num n => .ok (toInt32 n)
  | .bool b => .ok (if b then 1 else 0)
  | _ => .error .json_type_error

/-- `j.get<uint64_t>()`: a number is converted with `static_cast`; `uint64_t`
is the library's own unsigned number type, for which a boolean is a
`type_error`. -/
def Json.get_uint64 : Json → Except DecodeError Nat
  | .num n => .ok (n % 18446744073709551616).toNat
  | _ => .error .json_type_error

/-- `j.get<uint8_t>()`: a number is converted with `static_cast` (no range
check), a boolean counts as `0` or `1`. -/
def Json.get_uint8 : Json → Except DecodeError Nat
  | .num n => .ok (n % 256).toNat
  | .bool b => .ok (if b then 1 else 0)
  | _ => .error .json_type_error

/-! ## `std::stoull(str, nullptr, 16)` -/

/-- `isspace` in the C locale. -/
def isspace (c : Char) : Bool :=
  c.toNat = 32 || (9 ≤ c.toNat && c.toNat ≤ 13)

/-- The value of a hexadecimal digit. -/
def hexDigit (c : Char) : Option Nat :=
  if 48 ≤ c.toNat ∧ c.toNat ≤ 57 then some (c.toNat - 48)
  else if 97 ≤ c.toNat ∧ c.toNat ≤ 102 then some (c.toNat - 87)
  else if 65 ≤ c.toNat ∧ c.toNat ≤ 70 then some (c.toNat - 55)
  else none

/-- The digit values of the longest run of hexadecimal digits at the front. -/
def takeDigits : List Char → List Nat
  | [] => []
  | c :: cs =>
    match hexDigit c with
    | some d => d :: takeDigits cs
    | none => []

/-- The number a list of base-16 digit values denotes, most significant
first. -/
def digitsValue (ds : List Nat) : Nat :=
  ds.foldl (fun acc d => 16 * acc + d) 0

/-- `std::stoull(str, nullptr, 16)`, that is `strtoull` with base 16 and the
two checks `std::stoull` adds. Leading white space is skipped, one sign and one
`0x`/`0X` are accepted, then the longest run of hexadecimal digits is read and
whatever follows it is ignored (the position argument is `nullptr`). No digit
at all is `invalid_argument` (a bare `0x` reads as the digit `0`); a value
above `2^64 - 1` is `out_of_range`; a minus sign negates modulo `2^64`. -/
def stoull (str : String) : Except DecodeError Nat :=
  let s1 := str.toList.dropWhile isspace
  let neg := s1.head? = some '-'
  let s2 := if s1.head? = some '-' ∨ s1.head? = some '+' then s1.tail else s1
  let pre := s2.head? = some '0' ∧ (s2.tail.head? = some 'x' ∨ s2.tail.head? = some 'X')
  let s3 := if pre then s2.tail.tail else s2
  let ds := takeDigits s3
  if ds = [] then
    if pre then .ok 0 else .error .invalid_argument
  else if digitsValue ds < 18446744073709551616 then
    .ok (if neg then (18446744073709551616 - digitsValue ds) % 18446744073709551616
         else digitsValue ds)
  else .error .out_of_range

/-! ## The entities of `PoolMessage.h` -/

structure PoolError where
  errorCode : Int
  errorMessage : String
  deriving DecidableEq, Repr

structure Job where
  blob : String
  jobID : String
  shareDifficulty : Nat
  height : Option Nat
  blockMajorVersion : Option Nat
  blockMinorVersion : Option Nat
  rootMajorVersion : Option Nat
  rootMinorVersion : Option Nat
  deriving DecidableEq, Repr

structure PoolMessage where
  ID : String
  jsonRpc : String
  error : Option PoolError
  deriving DecidableEq, Repr

structure LoginMessage extends PoolMessage where
  loginID : String
  status : String
  job : Job
  deriving DecidableEq, Repr

/-- A value-initialised `Job`: empty strings, zero, empty optionals. -/
def Job.init : Job :=
  { blob := "", jobID := "", shareDifficulty := 0, height := none,
    blockMajorVersion := none, blockMinorVersion := none,
    rootMajorVersion := none, rootMinorVersion := none }

/-! ## The decoders -/

/-- `from_json(const nlohmann::json &, PoolError &)`. -/
def from_json_PoolError (j : Json) : Except DecodeError PoolError := do
  let code ← j.atKey "code"
  let errorCode ← code.get_int32
  let message ← j.atKey "message"
  let errorMessage ← message.get_string
  pure { errorCode := errorCode, errorMessage := errorMessage }

/-- One optional 64-bit member of a `Job`:
`if (j.find(key) != j.end()) field = j.at(key).get<uint64_t>();`. -/
def optional_uint64 (j : Json) (key : String) : Except DecodeError (Option Nat) :=
  if j.contains key then do
    let v ← j.atKey key
    let n ← v.get_uint64
    pure (some n)
  else pure none

/-- One optional 8-bit member of a `Job`:
`if (j.find(key) != j.end()) field = j.at(key).get<uint8_t>();`. -/
def optional_uint8 (j : Json) (key : String) : Except DecodeError (Option Nat) :=
  if j.contains key then do
    let v ← j.atKey key
    let n ← v.get_uint8
    pure (some n)
  else pure none

/-- `from_json(const nlohmann::json &, Job &)`. -/
def from_json_Job (j : Json) : Except DecodeError Job := do
  let blobJ ← j.atKey "blob"
  let blob ← blobJ.get_string
  let jobIdJ ← j.atKey "job_id"
  let jobID ← jobIdJ.get_string
  let targetJ ← j.atKey "target"
  let target ← targetJ.get_string
  let shareDifficulty ← stoull target
  let height ← optional_uint64 j "height"
  let blockMajorVersion ← optional_uint8 j "blockMajorVersion"
  let blockMinorVersion ← optional_uint8 j "blockMinorVersion"
  let rootMajorVersion ← optional_uint8 j "rootMajorVersion"
  let rootMinorVersion ← optional_uint8 j "rootMinorVersion"
  pure { blob := blob, jobID := jobID, shareDifficulty := shareDifficulty,
         height := height, blockMajorVersion := blockMajorVersion,
         blockMinorVersion := blockMinorVersion, rootMajorVersion := rootMajorVersion,
         rootMinorVersion := rootMinorVersion }

/-- `from_json(const nlohmann::json &, PoolMessage &)`. -/
def from_json_PoolMessage (j : Json) : Except DecodeError PoolMessage := do
  let idJ ← j.atKey "id"
  let ID ← idJ.get_string
  let rpcJ ← j.atKey "jsonrpc"
  let jsonRpc ← rpcJ.get_string
  let error ← j.atKey "error"
  if !error.is_null then
    let e ← from_json_PoolError error
    pure { ID := ID, jsonRpc := jsonRpc, error := some e }
  else
    pure { ID := ID, jsonRpc := jsonRpc, error := none }

/-- `from_json(const nlohmann::json &, LoginMessage &)`. -/
def from_json_LoginMessage (j : Json) : Except DecodeError LoginMessage := do
  let p ← from_json_PoolMessage j
  if p.error.isSome then
    pure { toPoolMessage := p, loginID := "", status := "", job := Job.init }
  else
    let result ← j.atKey "result"
    let idJ ← result.atKey "id"
    let loginID ← idJ.get_string
    let statusJ ← result.atKey "status"
    let status ← statusJ.get_string
    let jobJ ← result.atKey "job"
    let job ← from_json_Job jobJ
    pure { toPoolMessage := p, loginID := loginID, status := status, job := job }

/-! ## Readings of the specification and example documents -/

/-- The number a string of hexadecimal digits denotes, read as a base-16
numeral (the specification's reading of `target`). -/
def hexNumeral (s : String) : Nat :=
  s.toList.foldl (fun acc c => 16 * acc + (hexDigit c).getD 0) 0

/-- Every character of the string is a hexadecimal digit. -/
def allHex (s : String) : Bool :=
  s.toList.all (fun c => (hexDigit c).isSome)

/-- A decoding that ends in an exception: no entity is returned. -/
def Fails {α : Type} (x : Except DecodeError α) : Prop :=
  ∃ e, x = .error e

/-- No character of the string is a hexadecimal digit. -/
def noHexDigit (s : String) : Bool :=
  s.toList.all (fun c => (hexDigit c).isNone)

/-- The string is empty, or its first character is neither a hexadecimal digit
nor white space nor a sign. -/
def badStart (s : String) : Bool :=
  match s.toList.head? with
  | none => true
  | some c => (hexDigit c).isNone && !isspace c && c != '+' && c != '-'

/-- What the decoding of one optional member of a `Job` guarantees, given the
conversion `get` of its type and the bound of that type. -/
def OptionalField (get : Json → Except DecodeError Nat) (bound : Nat) (j : Json)
    (key : String) (field : Option Nat) : Prop :=
  (field.isSome = j.contains key) ∧
  (j.contains key = false → field = none) ∧
  (∀ v, j.find key = some v → ∃ n, get v = .ok n ∧ field = some n) ∧
  (∀ n : Nat, n < bound → j.find key = some (.num n) → field = some n)

/-- The string is empty or its first character is no hexadecimal digit: a
numeral in front of it ends there. -/
def endsNumeral (rest : String) : Bool :=
  match rest.toList.head? with
  | none => true
  | some c => (hexDigit c).isNone

/-- The string starts with `x` or `X`, the second character of the prefix
`0x`. -/
def startsWithX (rest : String) : Bool :=
  rest.toList.head? = some 'x' || rest.toList.head? = some 'X'

/-- A login response that carries an error; its `result` is not an object. -/
def loginErrorDoc : Json :=
  .obj [("id", .str "1"), ("jsonrpc", .str "2.0"),
        ("error", .obj [("code", .num (-1)), ("message", .str "Unauthenticated")]),
        ("result", .num 7)]

/-- A job as a pool sends it, with `target = "00000fff"` and a height. -/
def jobDoc : Json :=
  .obj [("blob", .str "0a0b"), ("job_id", .str "42"), ("target", .str "00000fff"),
        ("height", .num 12)]

/-- A successful login response. -/
def loginResultDoc : Json :=
  .obj [("id", .str "1"), ("jsonrpc", .str "2.0"), ("error", .null),
        ("result", .obj [("id", .str "abc"), ("status", .str "OK"), ("job", jobDoc)])]

/-- A job whose `target` is the given string. -/
def jobWithTarget (target : String) : Json :=
  .obj [("blob", .str "0a0b"), ("job_id", .str "42"), ("target", .str target)]

/-- A response with string `id` and `jsonrpc` and no `error` member. -/
def noErrorKeyDoc : Json :=
  .obj [("id", .str "1"), ("jsonrpc", .str "2.0")]

/-- A response with a null `error` and nothing else beyond `id`, `jsonrpc`. -/
def nullErrorDoc : Json :=
  .obj [("id", .str "1"), ("jsonrpc", .str "2.0"), ("error", .null)]

/-- A response whose error code is `2^32`, outside the range of `int32_t`. -/
def bigCodeDoc : Json :=
  .obj [("id", .str "1"), ("jsonrpc", .str "2.0"),
        ("error", .obj [("code", .num 4294967296), ("message", .str "Banned")])]

/-- A job whose `blockMajorVersion` is 300 and whose `height` is -1. -/
def bigVersionDoc : Json :=
  .obj [("blob", .str "0a0b"), ("job_id", .str "42"), ("target", .str "00000fff"),
        ("height", .num (-1)), ("blockMajorVersion", .num 300)]

end Types

namespace Nvidia

/-! ## Data the worker reads

`NvidiaDevice`, `HardwareConfig`, the backend `Job`, `HashResult`, `JobSubmit`
and `NvidiaState` are declared in headers outside `src/`; they are modelled by
the members `Nvidia.cpp` reads and writes. -/

structure NvidiaDevice where
  enabled : Bool
  name : String
  id : Nat
  nonceOffset : Nat
  deriving DecidableEq, Repr

structure NvidiaConfig where
  devices : List NvidiaDevice
  deriving DecidableEq, Repr

structure HardwareConfig where
  nvidia : NvidiaConfig
  noncesPerRound : Nat
  deriving DecidableEq, Repr

/-- The mining job the backend works on. `nonce` is the value `*job.nonce()`
reads, the nonce hint the pool placed in the job. -/
structure Job where
  algorithm : String
  isNiceHash : Bool
  rawBlob : List Nat
  jobID : String
  target : Nat
  nonce : Nat
  deriving DecidableEq, Repr

structure HashResult where
  success : Bool
  hash : List Nat
  nonce : Nat
  deriving DecidableEq, Repr

structure JobSubmit where
  hash : List Nat
  jobID : String
  nonce : Nat
  target : Nat
  hardwareName : String
  deriving DecidableEq, Repr

structure LaunchParams where
  noncesPerRun : Nat
  deriving DecidableEq, Repr

structure NvidiaState where
  launchParams : LaunchParams
  isNiceHash : Bool
  deriving DecidableEq, Repr

/-- The canonical variants `ArgonVariant::algorithmNameToCanonical` can give:
the two `getNvidiaMiningAlgorithm` has a case for, and any other. -/
inductive Algorithm where
  | Chukwa
  | ChukwaWrkz
  | Other (n : Nat)
  deriving DecidableEq, Repr

/-- The algorithm descriptor `NvidiaHash(memory, iterations)`. -/
structure NvidiaHash where
  memory : Nat
  iterations : Nat
  deriving DecidableEq, Repr

/-- Functions of the repository that `Nvidia.cpp` calls and that are defined
outside `src/`; the worker is parametric in them. -/
structure Externals where
  algorithmNameToCanonical : String → Algorithm
  initializeState : Nat → Nat → Nat → NvidiaState
  initNonceOffsets : HardwareConfig → Nat → HardwareConfig

/-- `getNvidiaMiningAlgorithm`. -/
def getNvidiaMiningAlgorithm (ext : Externals) (algorithm : String) : Except String NvidiaHash :=
  match ext.algorithmNameToCanonical algorithm with
  | .Chukwa => .ok { memory := 512, iterations := 3 }
  | .ChukwaWrkz => .ok { memory := 256, iterations := 4 }
  | .Other _ => .error "Developer fucked up. Sorry!"

/-! ## What a worker does and what it observes -/

/-- The calls a worker makes, in the order it makes them. -/
inductive Event where
  | freeState
  | initNonceOffsets (memory : Nat)
  | initializeState (gpuId memory iterations : Nat)
  | initJob (rawBlob salt : List Nat) (startNonce target : Nat)
  | init
  | hash (startNonce : Nat)
  | incrementHashesPerformed (hashesPerformed : Nat) (deviceName : String)
  | submitValidHash (jobSubmit : JobSubmit)
  | warning (message : String)
  | clearNewJobAvailable (threadNumber : Nat)
  deriving DecidableEq, Repr

/-- One pass through the head of the inner loop, as the worker sees it: the
value it reads from `m_newJobAvailable[threadNumber]` and, when that is false,
what `algorithm->hash(startNonce)` does. For a hash invocation that throws,
`freeThrows` tells whether the `freeState` of the handler throws as well. -/
inductive Tick where
  | newJob
  | batch (hashResult : HashResult)
  | fault (what : String) (freeThrows : Bool)
  deriving DecidableEq, Repr

/-- One pass through the outer loop, as the worker sees it: the values it reads
from `m_shouldStop`, `m_currentJob` and `m_nonce`, and the passes of the inner
loop that follow. -/
structure Round where
  shouldStop : Bool
  job : Job
  nonce : Nat
  ticks : List Tick
  deriving DecidableEq, Repr

/-- How the inner loop is left. `running`: the observation ends while the
worker is still hashing. -/
inductive LoopExit where
  | newJob
  | faulted
  | running
  deriving DecidableEq, Repr

/-- How the worker is left. `stopped`: the stop flag was seen and the state
freed; `faulted`: the `return` of the exception handler; `aborted`: an exception
left `Nvidia::hash`; `outOfRange`: `devices[gpu.id]` is outside the device
list; `running`: the observation ends while the worker is still running. -/
inductive Exit where
  | stopped
  | faulted
  | aborted (what : String)
  | outOfRange
  | running
  deriving DecidableEq, Repr

/-- The locals `state` and `currentAlgorithm` of `Nvidia::hash`. -/
structure Locals where
  state : NvidiaState
  currentAlgorithm : String
  deriving DecidableEq, Repr

/-- The locals as declared at the top of `Nvidia::hash`. -/
def Locals.init : Locals :=
  { state := { launchParams := { noncesPerRun := 0 }, isNiceHash := false },
    currentAlgorithm := "" }

/-! ## `Nvidia::hash` -/

/-- `gpu.name + "-" + std::to_string(gpu.id)`. -/
def gpuName (gpu : NvidiaDevice) : String :=
  gpu.name ++ "-" ++ toString gpu.id

/-- Lines 158-161: the start nonce of a NiceHash job takes its low 24 bits from
the computed start nonce and its high 8 bits from the job. -/
def niceHashNonce (isNiceHash : Bool) (startNonce jobNonce : Nat) : Nat :=
  if isNiceHash then (startNonce &&& 0x00FFFFFF) ||| (jobNonce &&& 0xFF000000)
  else startNonce

/-- Lines 156-161: the start nonce of a job cycle; `none` when
`devices[gpu.id]` is outside the device list. -/
def startNonce (cfg : HardwareConfig) (gpu : NvidiaDevice) (job : Job) (m_nonce : Nat) :
    Option Nat :=
  match cfg.nvidia.devices.get? gpu.id with
  | none => none
  | some device =>
    some (niceHashNonce job.isNiceHash ((m_nonce + device.nonceOffset) % 4294967296) job.nonce)

/-- Lines 168-202: the inner loop of `Nvidia::hash`, from the start nonce of
the next batch. The two callbacks are taken to return normally; an exception
in the `try` block is one of the hash invocation. -/
def hashLoop (noncesPerRound noncesPerRun : Nat) (name : String) (job : Job) :
    Nat → List Tick → LoopExit × List Event
  | _, [] => (.running, [])
  | _, .newJob :: _ => (.newJob, [])
  | nonce, .batch hashResult :: ticks =>
    let rest := hashLoop noncesPerRound noncesPerRun name job
      ((nonce + noncesPerRound) % 4294967296) ticks
    (rest.1,
      [Event.hash nonce, Event.incrementHashesPerformed noncesPerRun name]
        ++ (if hashResult.success then
              [Event.submitValidHash
                { hash := hashResult.hash, jobID := job.jobID, nonce := hashResult.nonce,
                  target := job.target, hardwareName := name }]
            else [])
        ++ rest.2)
  | nonce, .fault what _ :: _ =>
    (.faulted,
      [Event.hash nonce,
       Event.warning ("Caught unexpected error from GPU hasher: " ++ what),
       Event.freeState])

/-- Lines 137-150: the calls of the job-load step and the locals and hardware
configuration after it. -/
def loadAlgorithm (ext : Externals) (gpu : NvidiaDevice) (cfg : HardwareConfig)
    (locals : Locals) (job : Job) (algorithm : NvidiaHash) :
    HardwareConfig × Locals × List Event :=
  if job.algorithm != locals.currentAlgorithm then
    (ext.initNonceOffsets cfg algorithm.memory,
      { state := ext.initializeState gpu.id algorithm.memory algorithm.iterations,
        currentAlgorithm := job.algorithm },
      [Event.freeState, Event.initNonceOffsets algorithm.memory,
       Event.initializeState gpu.id algorithm.memory algorithm.iterations])
  else (cfg, locals, [])

/-- `Nvidia::hash(gpu, threadNumber)`, run from the head of the outer loop with
the given hardware configuration and locals against what the worker observes.
The result is how the worker is left and the calls it made. -/
def hash (ext : Externals) (gpu : NvidiaDevice) (threadNumber : Nat) :
    HardwareConfig → Locals → List Round → Exit × List Event
  | _, _, [] => (.running, [])
  | cfg, locals, round :: rounds =>
    if round.shouldStop then (.stopped, [Event.freeState])
    else
      match getNvidiaMiningAlgorithm ext round.job.algorithm with
      | .error what => (.aborted what, [])
      | .ok algorithm =>
        let loaded := loadAlgorithm ext gpu cfg locals round.job algorithm
        let state : NvidiaState := { loaded.2.1.state with isNiceHash := round.job.isNiceHash }
        match startNonce loaded.1 gpu round.job round.nonce with
        | none => (.outOfRange, loaded.2.2)
        | some nonce =>
          let prepared := loaded.2.2 ++
            [Event.initJob round.job.rawBlob (round.job.rawBlob.take 16) nonce round.job.target,
             Event.init]
          let inner := hashLoop loaded.1.noncesPerRound state.launchParams.noncesPerRun
            (gpuName gpu) round.job nonce round.ticks
          match inner.1 with
          | .running => (.running, prepared ++ inner.2)
          | .faulted => (.faulted, prepared ++ inner.2)
          | .newJob =>
            let rest := hash ext gpu threadNumber loaded.1
              { state := state, currentAlgorithm := loaded.2.1.currentAlgorithm } rounds
            (rest.1, prepared ++ inner.2 ++ [Event.clearNewJobAvailable threadNumber] ++ rest.2)

/-- Line 185 executed `k` times on a start nonce: the nonce of batch `k + 1`
of a job cycle. -/
def nonceAt (noncesPerRound start k : Nat) : Nat :=
  (start + k * noncesPerRound) % 4294967296

/-! ## Readings of a worker's calls -/

/-- The submission the worker makes of a successful hash result. -/
def toJobSubmit (job : Job) (name : String) (hashResult : HashResult) : JobSubmit :=
  { hash := hashResult.hash, jobID := job.jobID, nonce := hashResult.nonce,
    target := job.target, hardwareName := name }

/-- The throughput callbacks among the calls. -/
def throughputCalls : List Event → List (Nat × String)
  | [] => []
  | .incrementHashesPerformed n name :: evs => (n, name) :: throughputCalls evs
  | _ :: evs => throughputCalls evs

/-- The submissions among the calls. -/
def submissions : List Event → List JobSubmit
  | [] => []
  | .submitValidHash s :: evs => s :: submissions evs
  | _ :: evs => submissions evs

/-- The nonces of the hash invocations among the calls. -/
def hashCalls : List Event → List Nat
  | [] => []
  | .hash n :: evs => n :: hashCalls evs
  | _ :: evs => hashCalls evs

/-! ## Example values -/

/-- Externals for the examples: two algorithm names, a state with a batch of
1024 nonces, offsets left as they are. -/
def exampleExternals : Externals :=
  { algorithmNameToCanonical := fun name =>
      if name = "chukwa" then .Chukwa else if name = "chukwa_wrkz" then .ChukwaWrkz
      else .Other 0,
    initializeState := fun _ _ _ => { launchParams := { noncesPerRun := 1024 }, isNiceHash := false },
    initNonceOffsets := fun cfg _ => cfg }

/-- One enabled device. -/
def exampleDevice : NvidiaDevice :=
  { enabled := true, name := "GTX", id := 0, nonceOffset := 0 }

/-- A hardware configuration with that device alone. -/
def exampleConfig : HardwareConfig :=
  { nvidia := { devices := [exampleDevice] }, noncesPerRound := 1024 }

/-- A job of the algorithm `chukwa`. -/
def exampleJob : Job :=
  { algorithm := "chukwa", isNiceHash := false, rawBlob := [1, 2, 3], jobID := "42",
    target := 4095, nonce := 0 }

/-- A job cycle of two batches, the second with a share, and a third hash
invocation that throws, as does the `freeState` after it. -/
def faultyRound : Round :=
  { shouldStop := false, job := exampleJob, nonce := 5,
    ticks := [Tick.batch { success := false, hash := [], nonce := 0 },
              Tick.batch { success := true, hash := [7], nonce := 1030 },
              Tick.fault "launch failed" true,
              Tick.batch { success := true, hash := [8], nonce := 3000 }] }

/-! ## The nonce partitioner -/

/-- Modelled from the spec: `HardwareConfig::initNonceOffsets` is defined
outside `src/`. The specification (sections 3 and 4.3) has it assign every
enabled device a nonce offset such that the devices' ranges for one shared
nonce do not collide, and has `noncesPerRound` be the aggregate batch size
across the enabled devices. Here the enabled devices get consecutive slots in
list order, each as wide as the device's batch, and the result is the devices
with their offsets and the first nonce after the last slot. -/
def assignOffsets (width : NvidiaDevice → Nat) : Nat → List NvidiaDevice → List NvidiaDevice × Nat
  | next, [] => ([], next)
  | next, d :: ds =>
    if d.enabled then
      ({ d with nonceOffset := next } :: (assignOffsets width (next + width d) ds).1,
        (assignOffsets width (next + width d) ds).2)
    else (d :: (assignOffsets width next ds).1, (assignOffsets width next ds).2)

/-- Modelled from the spec: `HardwareConfig::initNonceOffsets(memory)`, defined
outside `src/`, for batch sizes `noncesPerRun memory id` of the device `id`
under an algorithm of that memory requirement: the offsets are the slots of
`assignOffsets` from 0 and `noncesPerRound` is the sum of the enabled devices'
batch sizes. -/
def initNonceOffsets (noncesPerRun : Nat → Nat → Nat) (cfg : HardwareConfig) (memory : Nat) :
    HardwareConfig :=
  { nvidia := { devices :=
      (assignOffsets (fun d => noncesPerRun memory d.id) 0 cfg.nvidia.devices).1 },
    noncesPerRound := (assignOffsets (fun d => noncesPerRun memory d.id) 0 cfg.nvidia.devices).2 }

/-- The first nonce of the slot of position `i`: the sum of the batch sizes of
the enabled devices before it. -/
def slotStart (width : NvidiaDevice → Nat) : List NvidiaDevice → Nat → Nat
  | [], _ => 0
  | _ :: _, 0 => 0
  | d :: ds, i + 1 => (if d.enabled then width d else 0) + slotStart width ds i

/-- An enabled device with id 0. -/
def gtx : NvidiaDevice :=
  { enabled := true, name := "GTX", id := 0, nonceOffset := 0 }

/-- An enabled device with id 1. -/
def rtx : NvidiaDevice :=
  { enabled := true, name := "RTX", id := 1, nonceOffset := 0 }

/-- The two devices `gtx` and `rtx` with batches of 1 and 2 nonces, after the
partitioner has run. -/
def twoDevices : HardwareConfig :=
  initNonceOffsets (fun _ id => if id = 0 then 1 else 2)
    { nvidia := { devices := [gtx, rtx] }, noncesPerRound := 0 } 512

/-! ## The orchestrator: constructor, `start`, `stop`, `setNewJob` -/

/-- A `std::thread` of `m_threads`, started as
`std::thread(&Nvidia::hash, this, gpu, threadNumber)`. -/
structure Thread where
  gpu : NvidiaDevice
  threadNumber : Nat
  deriving DecidableEq, Repr

/-- The data members of class `Nvidia` that `Nvidia.cpp` reads and writes, the
two callbacks apart. The class is declared in `Nvidia.h`, outside `src/`. -/
structure Members where
  m_hardwareConfig : HardwareConfig
  m_availableDevices : List NvidiaDevice
  m_numAvailableGPUs : Nat
  m_shouldStop : Bool
  m_nonce : Nat
  m_currentJob : Job
  m_newJobAvailable : List Bool
  m_threads : List Thread
  deriving DecidableEq, Repr

/-- What the orchestrator does to its threads, in order. -/
inductive Action where
  | join (thread : Thread)
  | spawn (thread : Thread)
  deriving DecidableEq, Repr

/-- The constructor `Nvidia::Nvidia`, lines 16-37: the enabled devices are
copied to `m_availableDevices` and counted. The constructor touches neither
`m_newJobAvailable` nor `m_threads`, which start empty; the initial values of
the stop flag, the job and the nonce come from `Nvidia.h` and are taken as
given. -/
def construct (hardwareConfig : HardwareConfig) (m_shouldStop : Bool) (m_currentJob : Job)
    (m_nonce : Nat) : Members :=
  { m_hardwareConfig := hardwareConfig,
    m_availableDevices := hardwareConfig.nvidia.devices.filter (fun device => device.enabled),
    m_numAvailableGPUs :=
      (hardwareConfig.nvidia.devices.filter (fun device => device.enabled)).length,
    m_shouldStop := m_shouldStop,
    m_nonce := m_nonce,
    m_currentJob := m_currentJob,
    m_newJobAvailable := [],
    m_threads := [] }

/-- The loop `for (i = 0; i < count; i++) m_newJobAvailable[i] = true;` of
`stop` and `setNewJob`; `none` when an index is outside the vector. -/
def raiseNewJobAvailable (m_newJobAvailable : List Bool) : Nat → Option (List Bool)
  | 0 => some m_newJobAvailable
  | i + 1 =>
    match raiseNewJobAvailable m_newJobAvailable i with
    | none => none
    | some signals => if i < signals.length then some (signals.set i true) else none

/-- The loop of `start` that pushes one thread for each `i < count`, bound to
`m_availableDevices[i]`; `none` when an index is outside the device list. -/
def spawnThreads (m_availableDevices : List NvidiaDevice) : Nat → Option (List Thread)
  | 0 => some []
  | i + 1 =>
    match spawnThreads m_availableDevices i with
    | none => none
    | some threads =>
      match m_availableDevices.get? i with
      | none => none
      | some gpu => some (threads ++ [{ gpu := gpu, threadNumber := i }])

/-- `Nvidia::stop`, lines 61-81: the orchestrator after the call and the
threads it joined; `none` when a signal slot written is outside
`m_newJobAvailable`. Every thread of `m_threads` is joinable. -/
def stop (self : Members) : Option (Members × List Action) :=
  match raiseNewJobAvailable self.m_newJobAvailable self.m_numAvailableGPUs with
  | none => none
  | some signals =>
    some ({ self with m_shouldStop := true, m_newJobAvailable := signals, m_threads := [] },
      self.m_threads.map Action.join)

/-- `Nvidia::start`, lines 39-59: the orchestrator after the call and the
threads it joined and spawned; `none` when an index is out of range. -/
def start (self : Members) (job : Job) (initialNonce : Nat) : Option (Members × List Action) :=
  match (if self.m_threads.isEmpty then some (self, []) else stop self) with
  | none => none
  | some (stopped, joined) =>
    match spawnThreads stopped.m_availableDevices stopped.m_numAvailableGPUs with
    | none => none
    | some threads =>
      some ({ stopped with
                m_shouldStop := false,
                m_nonce := initialNonce,
                m_currentJob := job,
                m_newJobAvailable := List.replicate stopped.m_numAvailableGPUs false,
                m_threads := stopped.m_threads ++ threads },
        joined ++ threads.map Action.spawn)

/-- `Nvidia::setNewJob`, lines 83-96; `none` when a signal slot written is
outside `m_newJobAvailable`. -/
def setNewJob (self : Members) (job : Job) (initialNonce : Nat) : Option Members :=
  match raiseNewJobAvailable self.m_newJobAvailable self.m_numAvailableGPUs with
  | none => none
  | some signals =>
    some { self with m_nonce := initialNonce, m_currentJob := job, m_newJobAvailable := signals }

/-- The specification's `stop(); start(job, initialNonce)`: the two calls one
after the other. -/
def stopThenStart (self : Members) (job : Job) (initialNonce : Nat) :
    Option (Members × List Action) :=
  match stop self with
  | none => none
  | some (stopped, joined) =>
    match start stopped job initialNonce with
    | none => none
    | some (started, actions) => some (started, joined ++ actions)

/-- The states of the orchestrator: the constructed one and those that the
three calls, a worker that clears its signal (line 205) and a worker that
recomputes the nonce offsets (line 141) lead to. `started` tells whether
`start` has been called. -/
inductive Reached : Bool → Members → Prop where
  | construct (hardwareConfig : HardwareConfig) (m_shouldStop : Bool) (m_currentJob : Job)
      (m_nonce : Nat) : Reached false (construct hardwareConfig m_shouldStop m_currentJob m_nonce)
  | start {started : Bool} {self after : Members} {actions : List Action} (job : Job)
      (initialNonce : Nat) : Reached started self →
      start self job initialNonce = some (after, actions) → Reached true after
  | stop {started : Bool} {self after : Members} {actions : List Action} :
      Reached started self → stop self = some (after, actions) → Reached started after
  | setNewJob {started : Bool} {self after : Members} (job : Job) (initialNonce : Nat) :
      Reached started self → setNewJob self job initialNonce = some after → Reached started after
  | clearNewJobAvailable {started : Bool} {self : Members} (threadNumber : Nat) :
      Reached started self → threadNumber < self.m_newJobAvailable.length →
      Reached started
        { self with m_newJobAvailable := self.m_newJobAvailable.set threadNumber false }
  | initNonceOffsets {started : Bool} {self : Members} (ext : Externals) (memory : Nat) :
      Reached started self →
      Reached started
        { self with m_hardwareConfig := ext.initNonceOffsets self.m_hardwareConfig memory }

/-- The batches of a job cycle that complete: the hash results up to the first
new-job signal, fault or end of the observation. -/
def completedBatches : List Tick → List HashResult
  | .batch hashResult :: ticks => hashResult :: completedBatches ticks
  | _ => []

/-- A hardware configuration with a disabled device between two enabled
ones. -/
def threeDevices : HardwareConfig :=
  { nvidia := { devices := [gtx, { enabled := false, name := "GT", id := 1, nonceOffset := 0 },
                            { enabled := true, name := "RTX", id := 2, nonceOffset := 0 }] },
    noncesPerRound := 0 }

/-- One thread for each device of the list, in order, numbered from
`threadNumber` on. -/
def threadsFor : List NvidiaDevice → Nat → List Thread
  | [], _ => []
  | gpu :: gpus, threadNumber =>
    { gpu := gpu, threadNumber := threadNumber } :: threadsFor gpus (threadNumber + 1)

/-- The orchestrator of `threeDevices` as constructed. -/
def freshExample : Members :=
  construct threeDevices false exampleJob 0

/-- The orchestrator of `threeDevices` after `start(exampleJob, 7)`, with the
two threads it spawned: two running workers. -/
def startedExample : Members × List Action :=
  (start freshExample exampleJob 7).getD (freshExample, [])

/-- Externals whose partitioner is the modelled one, with batches of 1024
nonces. -/
def partitionedExternals : Externals :=
  { exampleExternals with initNonceOffsets := initNonceOffsets (fun _ _ => 1024) }

/-- A NiceHash job whose nonce hint has the high byte `0xAB`. -/
def niceHashJob : Job :=
  { exampleJob with isNiceHash := true, nonce := 0xAB000000 }

/-- A job cycle of the NiceHash job from the shared nonce `0x00FFFFFF`, with
two batches. -/
def niceHashRound : Round :=
  { shouldStop := false, job := niceHashJob, nonce := 0x00FFFFFF,
    ticks := [Tick.batch { success := false, hash := [], nonce := 0 },
              Tick.batch { success := false, hash := [], nonce := 0 }] }

/-- A job cycle of two batches, the second with a share, left by a new-job
signal. -/
def switchedRound : Round :=
  { shouldStop := false, job := exampleJob, nonce := 5,
    ticks := [Tick.batch { success := false, hash := [], nonce := 0 },
              Tick.batch { success := true, hash := [7], nonce := 1030 },
              Tick.newJob] }

/-- A job cycle for a job of an algorithm the backend has no case for. -/
def unknownRound : Round :=
  { shouldStop := false, job := { exampleJob with algorithm := "cryptonight" }, nonce := 5,
    ticks := [Tick.batch { success := false, hash := [], nonce := 0 }] }

end Nvidia

/-! # Properties of the decoders -/

namespace Types

theorem hexDigit_lt (c : Char) (d : Nat) (h : hexDigit c = some d) : d < 16 := by
  unfold hexDigit at h
  split_ifs at h <;> simp at h <;> omega

theorem hexDigit_toNat (c : Char) (h : (hexDigit c).isSome = true) :
    (48 ≤ c.toNat ∧ c.toNat ≤ 57) ∨ (97 ≤ c.toNat ∧ c.toNat ≤ 102) ∨
      (65 ≤ c.toNat ∧ c.toNat ≤ 70) := by
  unfold hexDigit at h
  split_ifs at h with h1 h2 h3
  · exact Or.inl h1
  · exact Or.inr (Or.inl h2)
  · exact Or.inr (Or.inr h3)
  · simp at h

theorem takeDigits_allHex (cs : List Char) (h : ∀ c ∈ cs, (hexDigit c).isSome = true) :
    takeDigits cs = cs.map (fun c => (hexDigit c).getD 0) := by
  induction cs with
  | nil => rfl
  | cons c cs ih =>
    have hc := h c (List.mem_cons_self c cs)
    obtain ⟨d, hd⟩ := Option.isSome_iff_exists.mp hc
    simp only [takeDigits, hd, List.map_cons, Option.getD_some]
    rw [ih (fun x hx => h x (List.mem_cons_of_mem c hx))]

theorem foldl_digits_map (cs : List Char) (acc : Nat) :
    (cs.map (fun c => (hexDigit c).getD 0)).foldl (fun acc d => 16 * acc + d) acc =
      cs.foldl (fun acc c => 16 * acc + (hexDigit c).getD 0) acc := by
  induction cs generalizing acc with
  | nil => rfl
  | cons c cs ih => simp only [List.map_cons, List.foldl_cons]; exact ih _

theorem foldl_digits_lt (ds : List Nat) (acc : Nat) (h : ∀ d ∈ ds, d < 16) :
    ds.foldl (fun acc d => 16 * acc + d) acc < (acc + 1) * 16 ^ ds.length := by
  induction ds generalizing acc with
  | nil => simp
  | cons d ds ih =>
    have hd := h d (List.mem_cons_self d ds)
    have := ih (16 * acc + d) (fun x hx => h x (List.mem_cons_of_mem d hx))
    simp only [List.foldl_cons, List.length_cons]
    calc List.foldl (fun acc d => 16 * acc + d) (16 * acc + d) ds
        < (16 * acc + d + 1) * 16 ^ ds.length := this
      _ ≤ (16 * (acc + 1)) * 16 ^ ds.length := Nat.mul_le_mul_right _ (by omega)
      _ = (acc + 1) * 16 ^ (ds.length + 1) := by ring

/-- On a non-empty string of at most 16 hexadecimal digits `stoull` returns the
value of the numeral. -/
theorem stoull_allHex (s : String) (hne : 1 ≤ s.length) (hall : allHex s = true) :
    stoull s = if hexNumeral s < 18446744073709551616 then .ok (hexNumeral s)
      else .error .out_of_range := by
  obtain ⟨cs⟩ := s
  simp only [allHex, String.toList, List.all_eq_true] at hall
  simp only [String.length] at hne
  obtain ⟨c, rest, rfl⟩ := List.exists_cons_of_ne_nil (List.ne_nil_of_length_pos hne)
  have hc := hexDigit_toNat c (hall c (List.mem_cons_self c rest))
  have hsp : isspace c = false := by
    simp only [isspace, Bool.or_eq_false_iff, Bool.and_eq_false_iff, decide_eq_false_iff_not]
    omega
  have hminus : c ≠ '-' := by
    intro e; rw [e] at hc; revert hc; decide
  have hplus : c ≠ '+' := by
    intro e; rw [e] at hc; revert hc; decide
  have hpre : ¬ (rest.head? = some 'x' ∨ rest.head? = some 'X') := by
    rintro (e | e)
    · have hm : 'x' ∈ c :: rest := List.mem_cons_of_mem c (List.mem_of_mem_head? e)
      have := hexDigit_toNat _ (hall _ hm)
      revert this; decide
    · have hm : 'X' ∈ c :: rest := List.mem_cons_of_mem c (List.mem_of_mem_head? e)
      have := hexDigit_toNat _ (hall _ hm)
      revert this; decide
  have hd : takeDigits (c :: rest) = (c :: rest).map (fun c => (hexDigit c).getD 0) :=
    takeDigits_allHex _ hall
  have hval : digitsValue ((c :: rest).map (fun c => (hexDigit c).getD 0)) =
      hexNumeral ⟨c :: rest⟩ := by
    simp only [digitsValue, hexNumeral, String.toList]
    exact foldl_digits_map _ 0
  unfold stoull
  simp only [String.toList, List.dropWhile_cons, hsp, Bool.false_eq_true, if_false,
    List.head?_cons, Option.some.injEq, hminus, hplus, or_self, List.tail_cons, hpre, and_false,
    hd, decide_False]
  rw [if_neg (by simp), hval]

theorem takeDigits_append (ds rest : List Char) (h : ∀ c ∈ ds, (hexDigit c).isSome = true)
    (hrest : ∀ c, rest.head? = some c → hexDigit c = none) :
    takeDigits (ds ++ rest) = ds.map (fun c => (hexDigit c).getD 0) := by
  induction ds with
  | nil =>
    cases rest with
    | nil => rfl
    | cons c rest => simp only [List.nil_append, takeDigits, hrest c rfl, List.map_nil]
  | cons c ds ih =>
    have hc := h c (List.mem_cons_self c ds)
    obtain ⟨d, hd⟩ := Option.isSome_iff_exists.mp hc
    simp only [List.cons_append, takeDigits, hd, List.map_cons, Option.getD_some]
    exact congrArg (fun l => d :: l) (ih (fun x hx => h x (List.mem_cons_of_mem c hx)))

/-- On a non-empty run of hexadecimal digits followed by something that is no
hexadecimal digit, and that is not the `x` of a prefix `0x`, `stoull` reads
the run and ignores the rest. -/
theorem stoull_numeral (digits rest : String) (hmin : 1 ≤ digits.length)
    (hall : allHex digits = true) (hrest : endsNumeral rest = true)
    (hpre : ¬ (digits = "0" ∧ startsWithX rest = true)) :
    stoull (digits ++ rest) =
      if hexNumeral digits < 18446744073709551616 then .ok (hexNumeral digits)
      else .error .out_of_range := by
  obtain ⟨ds⟩ := digits
  obtain ⟨rs⟩ := rest
  simp only [allHex, String.toList, List.all_eq_true] at hall
  simp only [String.length] at hmin
  obtain ⟨c, ds, rfl⟩ := List.exists_cons_of_ne_nil (List.ne_nil_of_length_pos hmin)
  have hc := hexDigit_toNat c (hall c (List.mem_cons_self c ds))
  have hsp : isspace c = false := by
    simp only [isspace, Bool.or_eq_false_iff, Bool.and_eq_false_iff, decide_eq_false_iff_not]
    omega
  have hminus : c ≠ '-' := by
    intro e; rw [e] at hc; revert hc; decide
  have hplus : c ≠ '+' := by
    intro e; rw [e] at hc; revert hc; decide
  have hgarbage : ∀ x, rs.head? = some x → hexDigit x = none := by
    intro x hx
    simp only [endsNumeral, String.toList, hx, Option.isNone_iff_eq_none] at hrest
    exact hrest
  have hnopre : ¬ (c = '0' ∧
      ((ds ++ rs).head? = some 'x' ∨ (ds ++ rs).head? = some 'X')) := by
    rintro ⟨h0, hx⟩
    cases ds with
    | nil =>
      apply hpre
      subst h0
      refine ⟨rfl, ?_⟩
      simp only [startsWithX, String.toList, Bool.or_eq_true, decide_eq_true_eq]
      simpa using hx
    | cons d ds =>
      have hd := hexDigit_toNat d (hall d (List.mem_cons_of_mem c (List.mem_cons_self d ds)))
      simp only [List.cons_append, List.head?_cons, Option.some.injEq] at hx
      rcases hx with e | e
      · rw [e] at hd; revert hd; decide
      · rw [e] at hd; revert hd; decide
  have hd : takeDigits (c :: ds ++ rs) = (c :: ds).map (fun c => (hexDigit c).getD 0) :=
    takeDigits_append _ _ hall hgarbage
  have hval : digitsValue ((c :: ds).map (fun c => (hexDigit c).getD 0)) =
      hexNumeral ⟨c :: ds⟩ := by
    simp only [digitsValue, hexNumeral, String.toList]
    exact foldl_digits_map _ 0
  have happ : (String.mk (c :: ds) ++ String.mk rs).toList = c :: (ds ++ rs) := rfl
  unfold stoull
  simp only [happ, List.dropWhile_cons, hsp, Bool.false_eq_true, if_false,
    List.head?_cons, Option.some.injEq, hminus, hplus, or_self, List.tail_cons, hnopre,
    decide_False]
  rw [← List.cons_append, hd, if_neg (by simp), hval]

theorem hexNumeral_lt (s : String) (hlen : s.length ≤ 16) (hall : allHex s = true) :
    hexNumeral s < 18446744073709551616 := by
  obtain ⟨cs⟩ := s
  simp only [allHex, String.toList, List.all_eq_true] at hall
  simp only [String.length] at hlen
  have h16 : ∀ d ∈ cs.map (fun c => (hexDigit c).getD 0), d < 16 := by
    intro d hd
    obtain ⟨x, hx, rfl⟩ := List.mem_map.mp hd
    obtain ⟨y, hy⟩ := Option.isSome_iff_exists.mp (hall x hx)
    rw [hy]; exact hexDigit_lt x y hy
  have := foldl_digits_lt _ 0 h16
  simp only [List.length_map, zero_add, one_mul, foldl_digits_map] at this
  calc hexNumeral ⟨cs⟩ < 16 ^ cs.length := this
    _ ≤ 16 ^ 16 := Nat.pow_le_pow_right (by norm_num) hlen
    _ = 18446744073709551616 := by norm_num

theorem fails_bind {α β : Type} (x : Except DecodeError α) (f : α → Except DecodeError β)
    (h : ∀ a, x = .ok a → Fails (f a)) : Fails (x >>= f) := by
  cases x with
  | error e => exact ⟨e, rfl⟩
  | ok a => exact h a rfl

theorem fails_bind_left {α β : Type} (x : Except DecodeError α) (f : α → Except DecodeError β)
    (h : Fails x) : Fails (x >>= f) := by
  obtain ⟨e, rfl⟩ := h
  exact ⟨e, rfl⟩

theorem atKey_fails_of_not_contains (j : Json) (key : String) (h : j.contains key = false) :
    Fails (j.atKey key) := by
  cases j with
  | obj members =>
    simp only [Json.contains, Json.find] at h
    simp only [Json.atKey]
    cases hl : List.lookup key members with
    | none => exact ⟨_, rfl⟩
    | some v => simp [hl] at h
  | _ => exact ⟨_, rfl⟩

theorem bind_eq_ok {α β : Type} (x : Except DecodeError α) (f : α → Except DecodeError β)
    (b : β) : (x >>= f) = .ok b ↔ ∃ a, x = .ok a ∧ f a = .ok b := by
  cases x with
  | error e =>
    constructor
    · intro h; cases h
    · rintro ⟨a, h, _⟩; cases h
  | ok a =>
    constructor
    · intro h; exact ⟨a, rfl, h⟩
    · rintro ⟨a', h, h'⟩
      cases h
      exact h'

theorem ok_bind {α β : Type} (a : α) (f : α → Except DecodeError β) :
    ((Except.ok a : Except DecodeError α) >>= f) = f a := rfl

theorem get_string_eq_ok (v : Json) (s : String) : v.get_string = .ok s ↔ v = .str s := by
  cases v <;> simp [Json.get_string]

theorem pure_eq_ok {α : Type} (a b : α) : (pure a : Except DecodeError α) = .ok b ↔ a = b := by
  constructor
  · intro h; cases h; rfl
  · intro h; rw [h]; rfl

/-- What a successful `Job` decoding has read. -/
theorem from_json_Job_ok (j : Json) (job : Job) (h : from_json_Job j = .ok job) :
    j.atKey "blob" = .ok (.str job.blob) ∧ j.atKey "job_id" = .ok (.str job.jobID) ∧
    (∃ target, j.atKey "target" = .ok (.str target) ∧ stoull target = .ok job.shareDifficulty) ∧
    optional_uint64 j "height" = .ok job.height ∧
    optional_uint8 j "blockMajorVersion" = .ok job.blockMajorVersion ∧
    optional_uint8 j "blockMinorVersion" = .ok job.blockMinorVersion ∧
    optional_uint8 j "rootMajorVersion" = .ok job.rootMajorVersion ∧
    optional_uint8 j "rootMinorVersion" = .ok job.rootMinorVersion := by
  simp only [from_json_Job, bind_eq_ok, get_string_eq_ok, pure_eq_ok] at h
  obtain ⟨_, h1, b, rfl, _, h2, i, rfl, _, h3, t, rfl, sd, h4, ht, h5, v1, h6, v2, h7, v3, h8,
    v4, h9, rfl⟩ := h
  exact ⟨h1, h2, ⟨t, h3, h4⟩, h5, h6, h7, h8, h9⟩

/-- A `Job` decoding all of whose steps succeed. -/
theorem from_json_Job_of_steps (j : Json) (job : Job)
    (h1 : j.atKey "blob" = .ok (.str job.blob)) (h2 : j.atKey "job_id" = .ok (.str job.jobID))
    (target : String) (h3 : j.atKey "target" = .ok (.str target))
    (h4 : stoull target = .ok job.shareDifficulty)
    (h5 : optional_uint64 j "height" = .ok job.height)
    (h6 : optional_uint8 j "blockMajorVersion" = .ok job.blockMajorVersion)
    (h7 : optional_uint8 j "blockMinorVersion" = .ok job.blockMinorVersion)
    (h8 : optional_uint8 j "rootMajorVersion" = .ok job.rootMajorVersion)
    (h9 : optional_uint8 j "rootMinorVersion" = .ok job.rootMinorVersion) :
    from_json_Job j = .ok job := by
  simp only [from_json_Job, bind_eq_ok, get_string_eq_ok, pure_eq_ok]
  exact ⟨_, h1, _, rfl, _, h2, _, rfl, _, h3, _, rfl, _, h4, _, h5, _, h6, _, h7, _, h8, _, h9,
    rfl⟩

/-- What a successful `PoolError` decoding has read. -/
theorem from_json_PoolError_ok (j : Json) (p : PoolError) (h : from_json_PoolError j = .ok p) :
    (∃ code, j.atKey "code" = .ok code ∧ code.get_int32 = .ok p.errorCode) ∧
    j.atKey "message" = .ok (.str p.errorMessage) := by
  simp only [from_json_PoolError, bind_eq_ok, get_string_eq_ok, pure_eq_ok] at h
  obtain ⟨c, h1, n, h2, _, h3, m, rfl, rfl⟩ := h
  exact ⟨⟨c, h1, h2⟩, h3⟩

/-- The `PoolMessage` decoding of a document with string `id` and `jsonrpc` and
an `error` member. -/
theorem from_json_PoolMessage_eq (j e : Json) (i r : String)
    (hid : j.atKey "id" = .ok (.str i)) (hrpc : j.atKey "jsonrpc" = .ok (.str r))
    (herr : j.atKey "error" = .ok e) :
    from_json_PoolMessage j =
      if e.is_null then .ok { ID := i, jsonRpc := r, error := none }
      else (from_json_PoolError e) >>= fun pe =>
        .ok { ID := i, jsonRpc := r, error := some pe } := by
  simp only [from_json_PoolMessage, hid, hrpc, herr, Json.get_string, ok_bind]
  cases h : e.is_null
  · simp only [Bool.not_false, if_true, Bool.false_eq_true, if_false]
    rfl
  · simp only [Bool.not_true, Bool.false_eq_true, if_false, if_true]
    rfl

/-- What a successful `PoolMessage` decoding has read. -/
theorem from_json_PoolMessage_ok (j : Json) (p : PoolMessage)
    (h : from_json_PoolMessage j = .ok p) :
    j.atKey "id" = .ok (.str p.ID) ∧ j.atKey "jsonrpc" = .ok (.str p.jsonRpc) ∧
    ∃ e, j.atKey "error" = .ok e ∧
      ((e.is_null = true ∧ p.error = none) ∨
       (e.is_null = false ∧ ∃ pe, from_json_PoolError e = .ok pe ∧ p.error = some pe)) := by
  simp only [from_json_PoolMessage, bind_eq_ok, get_string_eq_ok] at h
  obtain ⟨_, h1, i, rfl, _, h2, r, rfl, e, h3, h4⟩ := h
  cases hn : e.is_null
  · simp only [hn, Bool.not_false, if_true, bind_eq_ok, pure_eq_ok] at h4
    obtain ⟨pe, h5, rfl⟩ := h4
    exact ⟨h1, h2, e, h3, Or.inr ⟨hn, pe, h5, rfl⟩⟩
  · simp only [hn, Bool.not_true, Bool.false_eq_true, if_false, pure_eq_ok] at h4
    subst h4
    exact ⟨h1, h2, e, h3, Or.inl ⟨hn, rfl⟩⟩

theorem atKey_eq_ok (j v : Json) (key : String) : j.atKey key = .ok v ↔ j.find key = some v := by
  cases j with
  | obj members =>
    simp only [Json.atKey, Json.find]
    cases hl : List.lookup key members <;> simp
  | _ => simp [Json.atKey, Json.find]

theorem stoull_noHexDigit (s : String) (h : noHexDigit s = true) :
    stoull s = .error .invalid_argument := by
  obtain ⟨cs⟩ := s
  simp only [noHexDigit, String.toList, List.all_eq_true, Option.isNone_iff_eq_none] at h
  have htake : ∀ l : List Char, (∀ c ∈ l, c ∈ cs) → takeDigits l = [] := by
    intro l hl
    cases l with
    | nil => rfl
    | cons c l => simp only [takeDigits, h c (hl c (List.mem_cons_self c l))]
  have h1 : ∀ c ∈ cs.dropWhile isspace, c ∈ cs :=
    fun c hc => (List.dropWhile_sublist isspace).subset hc
  have htail : ∀ l : List Char, ∀ c ∈ l.tail, c ∈ l := fun l c hc => List.mem_of_mem_tail hc
  unfold stoull
  simp only [String.toList]
  generalize hs1 : cs.dropWhile isspace = s1 at h1
  generalize hs2 : (if s1.head? = some '-' ∨ s1.head? = some '+' then s1.tail else s1) = s2
  have h2 : ∀ c ∈ s2, c ∈ cs := by
    intro c hc
    rw [← hs2] at hc
    split_ifs at hc
    · exact h1 c (htail _ c hc)
    · exact h1 c hc
  have hpre : ¬ (s2.head? = some '0' ∧ (s2.tail.head? = some 'x' ∨ s2.tail.head? = some 'X')) := by
    rintro ⟨h0, _⟩
    have := h '0' (h2 _ (List.mem_of_mem_head? h0))
    revert this; decide
  simp only [hpre, if_false, decide_False, Bool.false_eq_true]
  rw [htake s2 h2]
  simp

theorem stoull_badStart (s : String) (h : badStart s = true) :
    stoull s = .error .invalid_argument := by
  obtain ⟨cs⟩ := s
  cases cs with
  | nil => decide
  | cons c cs =>
    simp only [badStart, String.toList, List.head?_cons, Bool.and_eq_true,
      Option.isNone_iff_eq_none, Bool.not_eq_true', bne_iff_ne, ne_eq] at h
    obtain ⟨⟨⟨hd, hsp⟩, hplus⟩, hminus⟩ := h
    have h0 : c ≠ '0' := by
      intro e; rw [e] at hd; revert hd; decide
    unfold stoull
    simp only [String.toList, List.dropWhile_cons, hsp, Bool.false_eq_true, if_false,
      List.head?_cons, Option.some.injEq, hminus, hplus, or_self, h0, false_and, decide_False,
      takeDigits, hd]
    simp

theorem optional_uint64_ok (j : Json) (key : String) (field : Option Nat)
    (h : optional_uint64 j key = .ok field) :
    OptionalField Json.get_uint64 18446744073709551616 j key field := by
  unfold optional_uint64 at h
  unfold OptionalField
  cases hc : j.contains key
  · simp only [hc, Bool.false_eq_true, if_false, pure_eq_ok] at h
    subst h
    have hf : j.find key = none := by
      simpa [Json.contains] using hc
    refine ⟨rfl, fun _ => rfl, ?_, ?_⟩
    · intro v hv; rw [hf] at hv; cases hv
    · intro n _ hv; rw [hf] at hv; cases hv
  · simp only [hc, if_true, bind_eq_ok, pure_eq_ok] at h
    obtain ⟨v, hv, n, hn, rfl⟩ := h
    rw [atKey_eq_ok] at hv
    refine ⟨rfl, fun hcon => Bool.noConfusion hcon, ?_, ?_⟩
    · intro w hw
      rw [hv] at hw; cases hw
      exact ⟨n, hn, rfl⟩
    · intro m hm hw
      rw [hv] at hw; cases hw
      simp only [Json.get_uint64, Except.ok.injEq] at hn
      rw [← hn]
      congr 1
      omega

theorem optional_uint8_ok (j : Json) (key : String) (field : Option Nat)
    (h : optional_uint8 j key = .ok field) :
    OptionalField Json.get_uint8 256 j key field := by
  unfold optional_uint8 at h
  unfold OptionalField
  cases hc : j.contains key
  · simp only [hc, Bool.false_eq_true, if_false, pure_eq_ok] at h
    subst h
    have hf : j.find key = none := by
      simpa [Json.contains] using hc
    refine ⟨rfl, fun _ => rfl, ?_, ?_⟩
    · intro v hv; rw [hf] at hv; cases hv
    · intro n _ hv; rw [hf] at hv; cases hv
  · simp only [hc, if_true, bind_eq_ok, pure_eq_ok] at h
    obtain ⟨v, hv, n, hn, rfl⟩ := h
    rw [atKey_eq_ok] at hv
    refine ⟨rfl, fun hcon => Bool.noConfusion hcon, ?_, ?_⟩
    · intro w hw
      rw [hv] at hw; cases hw
      exact ⟨n, hn, rfl⟩
    · intro m hm hw
      rw [hv] at hw; cases hw
      simp only [Json.get_uint8, Except.ok.injEq] at hn
      rw [← hn]
      congr 1
      omega

theorem toInt32_of_range (n : Int) (h1 : -2147483648 ≤ n) (h2 : n < 2147483648) :
    toInt32 n = n := by
  unfold toInt32
  omega

/-- The `LoginMessage` decoding of a document whose `PoolMessage` part decodes
to `p`. -/
theorem from_json_LoginMessage_eq (j : Json) (p : PoolMessage)
    (h : from_json_PoolMessage j = .ok p) :
    from_json_LoginMessage j =
      if p.error.isSome then
        .ok { toPoolMessage := p, loginID := "", status := "", job := Job.init }
      else
        j.atKey "result" >>= fun result =>
        result.atKey "id" >>= fun idJ =>
        idJ.get_string >>= fun loginID =>
        result.atKey "status" >>= fun statusJ =>
        statusJ.get_string >>= fun status =>
        result.atKey "job" >>= fun jobJ =>
        from_json_Job jobJ >>= fun job =>
        .ok { toPoolMessage := p, loginID := loginID, status := status, job := job } := by
  simp only [from_json_LoginMessage, h, ok_bind]
  rfl

/-- Claim C3: decoding a `LoginMessage` from a document with string `id` and
`jsonrpc`. When `error` is a non-null valid error object the decoding succeeds
with that error, an empty login id and status and an untouched job; the value
does not mention `result`, and any document that agrees with this one on every
key other than `result` decodes to the same value. When `error` is null and
`result` has string `id` and `status` and a `job` that decodes, the decoding
succeeds with those three and no error. -/
theorem login_message_decode (j e : Json) (i r : String)
    (hid : j.atKey "id" = .ok (.str i)) (hrpc : j.atKey "jsonrpc" = .ok (.str r))
    (herr : j.atKey "error" = .ok e) :
    (∀ pe, e.is_null = false → from_json_PoolError e = .ok pe →
      from_json_LoginMessage j =
        .ok { ID := i, jsonRpc := r, error := some pe, loginID := "", status := "",
              job := Job.init } ∧
      ∀ j2 : Json, (∀ key, key ≠ "result" → j2.find key = j.find key) →
        from_json_LoginMessage j2 = from_json_LoginMessage j) ∧
    (e.is_null = true → ∀ result rid st jobJ job, j.atKey "result" = .ok result →
      result.atKey "id" = .ok (.str rid) → result.atKey "status" = .ok (.str st) →
      result.atKey "job" = .ok jobJ → from_json_Job jobJ = .ok job →
      from_json_LoginMessage j =
        .ok { ID := i, jsonRpc := r, error := none, loginID := rid, status := st,
              job := job }) := by
  have key : ∀ j' : Json, j'.atKey "id" = .ok (.str i) → j'.atKey "jsonrpc" = .ok (.str r) →
      j'.atKey "error" = .ok e → ∀ pe, e.is_null = false → from_json_PoolError e = .ok pe →
      from_json_LoginMessage j' =
        .ok { ID := i, jsonRpc := r, error := some pe, loginID := "", status := "",
              job := Job.init } := by
    intro j' h1 h2 h3 pe hn hpe
    have hp : from_json_PoolMessage j' = .ok { ID := i, jsonRpc := r, error := some pe } := by
      rw [from_json_PoolMessage_eq j' e i r h1 h2 h3, hn, hpe]
      rfl
    rw [from_json_LoginMessage_eq j' _ hp]
    rfl
  refine ⟨fun pe hn hpe => ⟨key j hid hrpc herr pe hn hpe, fun j2 hagree => ?_⟩, ?_⟩
  · rw [key j hid hrpc herr pe hn hpe]
    apply key j2 _ _ _ pe hn hpe
    · rw [atKey_eq_ok, hagree "id" (by decide), ← atKey_eq_ok]; exact hid
    · rw [atKey_eq_ok, hagree "jsonrpc" (by decide), ← atKey_eq_ok]; exact hrpc
    · rw [atKey_eq_ok, hagree "error" (by decide), ← atKey_eq_ok]; exact herr
  · intro hn result rid st jobJ job hres h1 h2 h3 h4
    have hp : from_json_PoolMessage j = .ok { ID := i, jsonRpc := r, error := none } := by
      rw [from_json_PoolMessage_eq j e i r hid hrpc herr, hn]
      rfl
    rw [from_json_LoginMessage_eq j _ hp]
    simp only [Option.isSome_none, Bool.false_eq_true, if_false, hres, h1, h2, h3, h4, ok_bind,
      Json.get_string]

/-- Claim C3 at two documents: one with an error and a `result` that is not
even an object, one with a null error and a result. -/
theorem login_message_decode_witness :
    from_json_LoginMessage loginErrorDoc =
      .ok { ID := "1", jsonRpc := "2.0",
            error := some { errorCode := -1, errorMessage := "Unauthenticated" },
            loginID := "", status := "", job := Job.init } ∧
    from_json_LoginMessage loginResultDoc =
      .ok { ID := "1", jsonRpc := "2.0", error := none, loginID := "abc", status := "OK",
            job := { blob := "0a0b", jobID := "42", shareDifficulty := 4095,
                     height := some 12, blockMajorVersion := none,
                     blockMinorVersion := none, rootMajorVersion := none,
                     rootMinorVersion := none } } :=
  ⟨((login_message_decode loginErrorDoc _ "1" "2.0" rfl rfl rfl).1 _ rfl rfl).1,
   (login_message_decode loginResultDoc _ "1" "2.0" rfl rfl rfl).2 rfl _ "abc" "OK" _ _
     rfl rfl rfl rfl (by decide)⟩

/-- Claim C4: when `target` is a string of 1 to 16 hexadecimal digits,
`std::stoull` returns the value of that base-16 numeral, every decoded `Job`
has it as its `shareDifficulty`, and the decoding does succeed once the other
members decode. -/
theorem target_hex_value (j : Json) (target : String)
    (htarget : j.atKey "target" = .ok (.str target)) (hmin : 1 ≤ target.length)
    (hmax : target.length ≤ 16) (hall : allHex target = true) :
    stoull target = .ok (hexNumeral target) ∧
    (∀ job, from_json_Job j = .ok job → job.shareDifficulty = hexNumeral target) ∧
    (∀ blob jobID height v1 v2 v3 v4, j.atKey "blob" = .ok (.str blob) →
      j.atKey "job_id" = .ok (.str jobID) → optional_uint64 j "height" = .ok height →
      optional_uint8 j "blockMajorVersion" = .ok v1 →
      optional_uint8 j "blockMinorVersion" = .ok v2 →
      optional_uint8 j "rootMajorVersion" = .ok v3 →
      optional_uint8 j "rootMinorVersion" = .ok v4 →
      from_json_Job j =
        .ok { blob := blob, jobID := jobID, shareDifficulty := hexNumeral target,
              height := height, blockMajorVersion := v1, blockMinorVersion := v2,
              rootMajorVersion := v3, rootMinorVersion := v4 }) := by
  have hs : stoull target = .ok (hexNumeral target) := by
    rw [stoull_allHex target hmin hall, if_pos (hexNumeral_lt target hmax hall)]
  refine ⟨hs, ?_, ?_⟩
  · intro job hjob
    obtain ⟨_, _, ⟨t, ht, hst⟩, _⟩ := from_json_Job_ok j job hjob
    rw [htarget] at ht
    cases ht
    rw [hs] at hst
    exact (Except.ok.inj hst).symm
  · intro blob jobID height v1 v2 v3 v4 h1 h2 h5 h6 h7 h8 h9
    exact from_json_Job_of_steps j _ h1 h2 target htarget hs h5 h6 h7 h8 h9

/-- Claim C4 at `target = "00000fff"`: the share difficulty is `0x00000fff`. -/
theorem target_hex_value_witness :
    hexNumeral "00000fff" = 0x00000fff ∧
    from_json_Job (jobWithTarget "00000fff") =
      .ok { blob := "0a0b", jobID := "42", shareDifficulty := hexNumeral "00000fff",
            height := none, blockMajorVersion := none, blockMinorVersion := none,
            rootMajorVersion := none, rootMinorVersion := none } :=
  ⟨by decide,
   (target_hex_value (jobWithTarget "00000fff") "00000fff" rfl (by decide) (by decide) (by decide)).2.2
     "0a0b" "42" none none none none none rfl rfl rfl rfl rfl rfl rfl⟩

/-- Claim C5 fails: a `target` with trailing garbage, with leading white
space and a sign, or with a `0x` in front is not a hexadecimal numeral, and the
`Job` decodes all the same. -/
theorem malformed_target_accepted :
    allHex "00000fffzz" = false ∧
    from_json_Job (jobWithTarget "00000fffzz") =
      .ok { blob := "0a0b", jobID := "42", shareDifficulty := 4095,
            height := none, blockMajorVersion := none, blockMinorVersion := none,
            rootMajorVersion := none, rootMinorVersion := none } ∧
    stoull " -1" = .ok 18446744073709551615 ∧
    stoull "0x1f" = .ok 31 := by
  decide

/-- Claim C5 as amended: decoding a `Job` fails when its `target` has no
hexadecimal digit at all (the empty string included), when its first character
is neither a hexadecimal digit nor white space nor a sign, and when it is a
numeral of hexadecimal digits only that does not fit 64 bits. A `target` made
of 1 to 16 hexadecimal digits and a rest that does not start with a
hexadecimal digit (the target not being `0x...`) is not rejected: `std::stoull`
returns the value of the digits, every decoded `Job` has it as its
`shareDifficulty`, and the decoding succeeds once the other members decode. -/
theorem malformed_target_decoding (j : Json) (target : String)
    (htarget : j.atKey "target" = .ok (.str target)) :
    ((noHexDigit target = true ∨ badStart target = true ∨
        (allHex target = true ∧ 18446744073709551616 ≤ hexNumeral target)) →
      Fails (from_json_Job j)) ∧
    (∀ digits rest : String, target = digits ++ rest → 1 ≤ digits.length →
      digits.length ≤ 16 → allHex digits = true → endsNumeral rest = true →
      ¬ (digits = "0" ∧ startsWithX rest = true) →
      stoull target = .ok (hexNumeral digits) ∧
      (∀ job, from_json_Job j = .ok job → job.shareDifficulty = hexNumeral digits) ∧
      (∀ blob jobID height v1 v2 v3 v4, j.atKey "blob" = .ok (.str blob) →
        j.atKey "job_id" = .ok (.str jobID) → optional_uint64 j "height" = .ok height →
        optional_uint8 j "blockMajorVersion" = .ok v1 →
        optional_uint8 j "blockMinorVersion" = .ok v2 →
        optional_uint8 j "rootMajorVersion" = .ok v3 →
        optional_uint8 j "rootMinorVersion" = .ok v4 →
        from_json_Job j =
          .ok { blob := blob, jobID := jobID, shareDifficulty := hexNumeral digits,
                height := height, blockMajorVersion := v1, blockMinorVersion := v2,
                rootMajorVersion := v3, rootMinorVersion := v4 })) := by
  constructor
  · intro hbad
    have hs : Fails (stoull target) := by
      rcases hbad with h | h | ⟨h, hov⟩
      · exact ⟨_, stoull_noHexDigit target h⟩
      · exact ⟨_, stoull_badStart target h⟩
      · have hlen : 1 ≤ target.length := by
          rcases Nat.eq_zero_or_pos target.length with h0 | h0
          · obtain ⟨cs⟩ := target
            have : cs = [] := List.eq_nil_of_length_eq_zero h0
            subst this
            revert hov; decide
          · exact h0
        refine ⟨.out_of_range, ?_⟩
        rw [stoull_allHex target hlen h, if_neg (by omega)]
    unfold from_json_Job
    refine fails_bind _ _ (fun _ _ => fails_bind _ _ (fun _ _ => ?_))
    refine fails_bind _ _ (fun _ _ => fails_bind _ _ (fun _ _ => ?_))
    refine fails_bind _ _ (fun tJ htJ => fails_bind _ _ (fun t ht => ?_))
    rw [htarget] at htJ
    cases htJ
    cases ht
    exact fails_bind_left _ _ hs
  · intro digits rest hsplit hmin hmax hall hrest hpre
    have hs : stoull target = .ok (hexNumeral digits) := by
      rw [hsplit, stoull_numeral digits rest hmin hall hrest hpre,
        if_pos (hexNumeral_lt digits hmax hall)]
    refine ⟨hs, ?_, ?_⟩
    · intro job hjob
      obtain ⟨_, _, ⟨t, ht, hst⟩, _⟩ := from_json_Job_ok j job hjob
      rw [htarget] at ht
      cases ht
      rw [hs] at hst
      exact (Except.ok.inj hst).symm
    · intro blob jobID height v1 v2 v3 v4 h1 h2 h5 h6 h7 h8 h9
      exact from_json_Job_of_steps j _ h1 h2 target htarget hs h5 h6 h7 h8 h9

/-- Claim C5 as amended, at an empty target, a target that starts with
garbage, a numeral of 17 digits, and the numeral `00000fff` followed by
garbage, which decodes to 4095. -/
theorem malformed_target_decoding_witness :
    Fails (from_json_Job (jobWithTarget "")) ∧
    Fails (from_json_Job (jobWithTarget "zz0fff")) ∧
    Fails (from_json_Job (jobWithTarget "10000000000000000")) ∧
    hexNumeral "00000fff" = 4095 ∧
    from_json_Job (jobWithTarget "00000fffzz") =
      .ok { blob := "0a0b", jobID := "42", shareDifficulty := hexNumeral "00000fff",
            height := none, blockMajorVersion := none, blockMinorVersion := none,
            rootMajorVersion := none, rootMinorVersion := none } :=
  ⟨(malformed_target_decoding (jobWithTarget "") "" rfl).1 (Or.inl (by decide)),
   (malformed_target_decoding (jobWithTarget "zz0fff") "zz0fff" rfl).1
     (Or.inr (Or.inl (by decide))),
   (malformed_target_decoding (jobWithTarget "10000000000000000") "10000000000000000" rfl).1
     (Or.inr (Or.inr (by decide))),
   by decide,
   ((malformed_target_decoding (jobWithTarget "00000fffzz") "00000fffzz" rfl).2
      "00000fff" "zz" (by decide) (by decide) (by decide) (by decide) (by decide)
      (by decide)).2.2 "0a0b" "42" none none none none none rfl rfl rfl rfl rfl rfl rfl⟩

/-- Claim C6: a missing required member is a decoding failure. A document
without `code` or without `message` is no `PoolError`; one without `blob`,
`job_id` or `target` is no `Job`; one with a null `error` and no `result`, or
with a `result` that has no `id`, `status` or `job`, is no `LoginMessage`. -/
theorem missing_required_field_fails (j : Json) :
    ((j.contains "code" = false ∨ j.contains "message" = false) →
      Fails (from_json_PoolError j)) ∧
    ((j.contains "blob" = false ∨ j.contains "job_id" = false ∨ j.contains "target" = false) →
      Fails (from_json_Job j)) ∧
    (j.atKey "error" = .ok .null →
      (j.contains "result" = false ∨
        ∃ result, j.atKey "result" = .ok result ∧
          (result.contains "id" = false ∨ result.contains "status" = false ∨
            result.contains "job" = false)) →
      Fails (from_json_LoginMessage j)) := by
  refine ⟨?_, ?_, ?_⟩
  · intro h
    unfold from_json_PoolError
    rcases h with h | h
    · exact fails_bind_left _ _ (atKey_fails_of_not_contains j _ h)
    · refine fails_bind _ _ (fun _ _ => fails_bind _ _ (fun _ _ => ?_))
      exact fails_bind_left _ _ (atKey_fails_of_not_contains j _ h)
  · intro h
    unfold from_json_Job
    rcases h with h | h | h
    · exact fails_bind_left _ _ (atKey_fails_of_not_contains j _ h)
    · refine fails_bind _ _ (fun _ _ => fails_bind _ _ (fun _ _ => ?_))
      exact fails_bind_left _ _ (atKey_fails_of_not_contains j _ h)
    · refine fails_bind _ _ (fun _ _ => fails_bind _ _ (fun _ _ => ?_))
      refine fails_bind _ _ (fun _ _ => fails_bind _ _ (fun _ _ => ?_))
      exact fails_bind_left _ _ (atKey_fails_of_not_contains j _ h)
  · intro herr h
    cases hp : from_json_PoolMessage j with
    | error e =>
      refine ⟨e, ?_⟩
      simp only [from_json_LoginMessage, hp]
      rfl
    | ok p =>
      obtain ⟨_, _, e, he, hcase⟩ := from_json_PoolMessage_ok j p hp
      rw [herr] at he
      cases he
      have hnone : p.error = none := by
        rcases hcase with ⟨_, h0⟩ | ⟨h0, _⟩
        · exact h0
        · cases h0
      rw [from_json_LoginMessage_eq j p hp, hnone]
      simp only [Option.isSome_none, Bool.false_eq_true, if_false]
      rcases h with h | ⟨result, hres, h⟩
      · exact fails_bind_left _ _ (atKey_fails_of_not_contains j _ h)
      · rw [hres, ok_bind]
        rcases h with h | h | h
        · exact fails_bind_left _ _ (atKey_fails_of_not_contains result _ h)
        · refine fails_bind _ _ (fun _ _ => fails_bind _ _ (fun _ _ => ?_))
          exact fails_bind_left _ _ (atKey_fails_of_not_contains result _ h)
        · refine fails_bind _ _ (fun _ _ => fails_bind _ _ (fun _ _ => ?_))
          refine fails_bind _ _ (fun _ _ => fails_bind _ _ (fun _ _ => ?_))
          exact fails_bind_left _ _ (atKey_fails_of_not_contains result _ h)

/-- Claim C6 at documents that lack `message`, `target` and `result`. -/
theorem missing_required_field_fails_witness :
    Fails (from_json_PoolError (.obj [("code", .num 1)])) ∧
    Fails (from_json_Job (.obj [("blob", .str "0a0b"), ("job_id", .str "42")])) ∧
    Fails (from_json_LoginMessage nullErrorDoc) :=
  ⟨(missing_required_field_fails (.obj [("code", .num 1)])).1 (Or.inr rfl),
   (missing_required_field_fails (.obj [("blob", .str "0a0b"), ("job_id", .str "42")])).2.1
     (Or.inr (Or.inr rfl)),
   (missing_required_field_fails nullErrorDoc).2.2 rfl (Or.inl rfl)⟩

/-- Claim C7 fails: a document with string `id` and `jsonrpc` and no `error`
member does not decode; `at("error")` throws. -/
theorem pool_message_without_error_key :
    noErrorKeyDoc.atKey "id" = .ok (.str "1") ∧
    noErrorKeyDoc.atKey "jsonrpc" = .ok (.str "2.0") ∧
    noErrorKeyDoc.contains "error" = false ∧
    from_json_PoolMessage noErrorKeyDoc = .error .json_out_of_range :=
  ⟨rfl, rfl, rfl, rfl⟩

/-- Claim C7 as amended: `PoolMessage` decoding requires `id`, `jsonrpc` and
an `error` member. With string `id` and `jsonrpc`, a null `error` decodes to
those two strings and no error, and a missing `error` member is a failure. -/
theorem pool_message_required_fields (j : Json) (i r : String)
    (hid : j.atKey "id" = .ok (.str i)) (hrpc : j.atKey "jsonrpc" = .ok (.str r)) :
    (j.atKey "error" = .ok .null →
      from_json_PoolMessage j = .ok { ID := i, jsonRpc := r, error := none }) ∧
    (j.contains "error" = false → Fails (from_json_PoolMessage j)) := by
  constructor
  · intro herr
    rw [from_json_PoolMessage_eq j .null i r hid hrpc herr]
    rfl
  · intro h
    unfold from_json_PoolMessage
    refine fails_bind _ _ (fun _ _ => fails_bind _ _ (fun _ _ => ?_))
    refine fails_bind _ _ (fun _ _ => fails_bind _ _ (fun _ _ => ?_))
    exact fails_bind_left _ _ (atKey_fails_of_not_contains j _ h)

/-- Claim C7 as amended, at a response with a null error and at one without
the member. -/
theorem pool_message_required_fields_witness :
    from_json_PoolMessage nullErrorDoc = .ok { ID := "1", jsonRpc := "2.0", error := none } ∧
    Fails (from_json_PoolMessage noErrorKeyDoc) :=
  ⟨(pool_message_required_fields nullErrorDoc "1" "2.0" rfl rfl).1 rfl,
   (pool_message_required_fields noErrorKeyDoc "1" "2.0" rfl rfl).2 rfl⟩

/-- Claim C8 fails: the source error's `code` is `2^32`, the decoding succeeds
and the decoded `errorCode` is `0`. -/
theorem pool_error_code_truncated :
    (bigCodeDoc.atKey "error" >>= fun e => e.atKey "code") = .ok (.num 4294967296) ∧
    from_json_PoolMessage bigCodeDoc =
      .ok { ID := "1", jsonRpc := "2.0",
            error := some { errorCode := 0, errorMessage := "Banned" } } :=
  ⟨rfl, by decide⟩

/-- Claim C8 as amended: in a decoded `PoolMessage` the error is present
exactly when the source's `error` is non-null; when present, its message is the
source error's `message` and its code is the source error's `code` converted
to `int32_t`, which is the source integer itself when that lies in
`[-2^31, 2^31)`. -/
theorem pool_message_error_present (j e : Json) (p : PoolMessage)
    (hp : from_json_PoolMessage j = .ok p) (herr : j.atKey "error" = .ok e) :
    (p.error.isSome = !e.is_null) ∧
    (∀ pe, p.error = some pe →
      e.atKey "message" = .ok (.str pe.errorMessage) ∧
      (∃ code, e.atKey "code" = .ok code ∧ code.get_int32 = .ok pe.errorCode) ∧
      (∀ n : Int, e.atKey "code" = .ok (.num n) → -2147483648 ≤ n → n < 2147483648 →
        pe.errorCode = n)) := by
  obtain ⟨_, _, e', he', hcase⟩ := from_json_PoolMessage_ok j p hp
  rw [herr] at he'
  cases he'
  rcases hcase with ⟨hn, hnone⟩ | ⟨hn, pe, hpe, hsome⟩
  · rw [hnone, hn]
    exact ⟨rfl, fun pe h => by cases h⟩
  · rw [hsome, hn]
    refine ⟨rfl, fun pe' h => ?_⟩
    cases h
    obtain ⟨⟨code, hc, hg⟩, hm⟩ := from_json_PoolError_ok e pe hpe
    refine ⟨hm, ⟨code, hc, hg⟩, fun n hcn h1 h2 => ?_⟩
    rw [hc] at hcn
    cases hcn
    simp only [Json.get_int32, Except.ok.injEq] at hg
    rw [← hg]
    exact toInt32_of_range n h1 h2

/-- Claim C8 as amended, at the login response that carries the error `-1`:
the error is present and its code is the source's. -/
theorem pool_message_error_present_witness :
    (some { errorCode := -1, errorMessage := "Unauthenticated" } : Option PoolError).isSome =
      !(Json.obj [("code", .num (-1)), ("message", .str "Unauthenticated")]).is_null ∧
    ({ errorCode := -1, errorMessage := "Unauthenticated" } : PoolError).errorCode = -1 :=
  ⟨(pool_message_error_present loginErrorDoc
      (.obj [("code", .num (-1)), ("message", .str "Unauthenticated")])
      { ID := "1", jsonRpc := "2.0",
        error := some { errorCode := -1, errorMessage := "Unauthenticated" } }
      (by decide) rfl).1,
   ((pool_message_error_present loginErrorDoc
      (.obj [("code", .num (-1)), ("message", .str "Unauthenticated")])
      { ID := "1", jsonRpc := "2.0",
        error := some { errorCode := -1, errorMessage := "Unauthenticated" } }
      (by decide) rfl).2 _ rfl).2.2 (-1) rfl (by decide) (by decide)⟩

/-- Claim C9 fails: the source's `blockMajorVersion` is 300 and its `height`
is -1; the decoding succeeds with `blockMajorVersion = 44` and
`height = 2^64 - 1`. -/
theorem job_optional_field_truncated :
    bigVersionDoc.find "blockMajorVersion" = some (.num 300) ∧
    bigVersionDoc.find "height" = some (.num (-1)) ∧
    from_json_Job bigVersionDoc =
      .ok { blob := "0a0b", jobID := "42", shareDifficulty := 4095,
            height := some 18446744073709551615, blockMajorVersion := some 44,
            blockMinorVersion := none, rootMajorVersion := none,
            rootMinorVersion := none } :=
  ⟨rfl, rfl, by decide⟩

/-- Claim C9 as amended: in a decoded `Job` each of the five optional members
is present exactly when the source has the key and absent (not zero) when it
has not; when present its value is the source value converted to the member's
type (`uint64_t` for `height`, `uint8_t` for the four versions), which is the
source integer itself when that is within the type's range. -/
theorem job_optional_fields (j : Json) (job : Job) (h : from_json_Job j = .ok job) :
    OptionalField Json.get_uint64 18446744073709551616 j "height" job.height ∧
    OptionalField Json.get_uint8 256 j "blockMajorVersion" job.blockMajorVersion ∧
    OptionalField Json.get_uint8 256 j "blockMinorVersion" job.blockMinorVersion ∧
    OptionalField Json.get_uint8 256 j "rootMajorVersion" job.rootMajorVersion ∧
    OptionalField Json.get_uint8 256 j "rootMinorVersion" job.rootMinorVersion := by
  obtain ⟨_, _, _, h5, h6, h7, h8, h9⟩ := from_json_Job_ok j job h
  exact ⟨optional_uint64_ok _ _ _ h5, optional_uint8_ok _ _ _ h6, optional_uint8_ok _ _ _ h7,
    optional_uint8_ok _ _ _ h8, optional_uint8_ok _ _ _ h9⟩

/-- Claim C9 as amended, at a job with a height and no version members. -/
theorem job_optional_fields_witness :
    OptionalField Json.get_uint64 18446744073709551616 jobDoc "height" (some 12) ∧
    OptionalField Json.get_uint8 256 jobDoc "blockMajorVersion" none :=
  ⟨(job_optional_fields jobDoc
      { blob := "0a0b", jobID := "42", shareDifficulty := 4095, height := some 12,
        blockMajorVersion := none, blockMinorVersion := none, rootMajorVersion := none,
        rootMinorVersion := none } (by decide)).1,
   (job_optional_fields jobDoc
      { blob := "0a0b", jobID := "42", shareDifficulty := 4095, height := some 12,
        blockMajorVersion := none, blockMinorVersion := none, rootMajorVersion := none,
        rootMinorVersion := none } (by decide)).2.1⟩

end Types

/-! # Properties of the worker -/

namespace Nvidia

theorem throughputCalls_append (a b : List Event) :
    throughputCalls (a ++ b) = throughputCalls a ++ throughputCalls b := by
  induction a with
  | nil => rfl
  | cons e a ih => cases e <;> simp [throughputCalls, ih]

theorem submissions_append (a b : List Event) :
    submissions (a ++ b) = submissions a ++ submissions b := by
  induction a with
  | nil => rfl
  | cons e a ih => cases e <;> simp [submissions, ih]

theorem hashCalls_append (a b : List Event) :
    hashCalls (a ++ b) = hashCalls a ++ hashCalls b := by
  induction a with
  | nil => rfl
  | cons e a ih => cases e <;> simp [hashCalls, ih]

/-- The inner loop on `rs.length` successful batches followed by a hash
invocation that throws. -/
theorem hashLoop_fault (noncesPerRound noncesPerRun : Nat) (name : String) (job : Job)
    (what : String) (freeThrows : Bool) (rest : List Tick) (rs : List HashResult) (nonce : Nat) :
    ∃ before last,
      hashLoop noncesPerRound noncesPerRun name job nonce
          (rs.map Tick.batch ++ Tick.fault what freeThrows :: rest) =
        (.faulted, before ++ [Event.hash last,
          Event.warning ("Caught unexpected error from GPU hasher: " ++ what),
          Event.freeState]) ∧
      throughputCalls before = List.replicate rs.length (noncesPerRun, name) ∧
      submissions before = (rs.filter (fun r => r.success)).map (toJobSubmit job name) ∧
      (hashCalls before).length = rs.length := by
  induction rs generalizing nonce with
  | nil => exact ⟨[], nonce, rfl, rfl, rfl, rfl⟩
  | cons r rs ih =>
    obtain ⟨before, last, heq, h1, h2, h3⟩ := ih ((nonce + noncesPerRound) % 4294967296)
    refine ⟨[Event.hash nonce, Event.incrementHashesPerformed noncesPerRun name]
        ++ (if r.success then [Event.submitValidHash (toJobSubmit job name r)] else [])
        ++ before, last, ?_, ?_, ?_, ?_⟩
    · rw [List.map_cons, List.cons_append, hashLoop, heq]
      simp only [toJobSubmit, List.append_assoc]
    · cases hr : r.success <;>
        simp [throughputCalls, throughputCalls_append, h1, List.replicate_succ]
    · cases hr : r.success <;>
        simp [submissions, submissions_append, h2, hr]
    · cases hr : r.success <;>
        simp [hashCalls, hashCalls_append, h3]

theorem mask_testBit (s h i : Nat) :
    ((s &&& 0x00FFFFFF) ||| (h &&& 0xFF000000)).testBit i =
      if i < 24 then s.testBit i else (decide (i < 32) && h.testBit i) := by
  have e1 : (0x00FFFFFF : Nat) = 2 ^ 24 - 1 := by norm_num
  have e2 : (0xFF000000 : Nat) = 2 ^ 24 * (2 ^ 8 - 1) := by norm_num
  rw [e1, e2]
  simp only [Nat.testBit_or, Nat.testBit_and, Nat.testBit_two_pow_sub_one,
    Nat.testBit_mul_pow_two]
  by_cases h24 : i < 24
  · have : ¬ (24 ≤ i) := by omega
    simp [h24, this]
  · have h1 : 24 ≤ i := by omega
    by_cases h32 : i < 32
    · have : i - 24 < 8 := by omega
      simp [h24, h1, h32, this]
    · have : ¬ (i - 24 < 8) := by omega
      simp [h24, h1, h32, this]

theorem mask_mod (s h : Nat) :
    ((s &&& 0x00FFFFFF) ||| (h &&& 0xFF000000)) % 2 ^ 24 = s % 2 ^ 24 := by
  apply Nat.eq_of_testBit_eq
  intro i
  rw [Nat.testBit_mod_two_pow, Nat.testBit_mod_two_pow, mask_testBit]
  by_cases h24 : i < 24 <;> simp [h24]

theorem mask_div (s h : Nat) (hh : h < 2 ^ 32) :
    ((s &&& 0x00FFFFFF) ||| (h &&& 0xFF000000)) / 2 ^ 24 = h / 2 ^ 24 := by
  apply Nat.eq_of_testBit_eq
  intro i
  rw [← Nat.shiftRight_eq_div_pow, ← Nat.shiftRight_eq_div_pow, Nat.testBit_shiftRight,
    Nat.testBit_shiftRight, mask_testBit]
  have : ¬ (24 + i < 24) := by omega
  simp only [this, if_false]
  by_cases h32 : 24 + i < 32
  · simp [h32]
  · simp only [h32, decide_False, Bool.false_and]
    symm
    apply Nat.testBit_lt_two_pow
    calc h < 2 ^ 32 := hh
      _ ≤ 2 ^ (24 + i) := Nat.pow_le_pow_right (by norm_num) (by omega)

theorem mask_lt (s h : Nat) : ((s &&& 0x00FFFFFF) ||| (h &&& 0xFF000000)) < 2 ^ 32 := by
  apply Nat.lt_pow_two_of_testBit
  intro i hi
  rw [mask_testBit]
  have h1 : ¬ (i < 24) := by omega
  have h2 : ¬ (i < 32) := by omega
  simp [h1, h2]

/-- Claim C1: the start nonce of a NiceHash job is
`(s & 0x00FFFFFF) | (h & 0xFF000000)` for the computed start nonce `s` and the
job's nonce hint `h`: its low 24 bits are those of `s`, its high 8 bits those of
`h`, and it fits 32 bits. For a job that is not NiceHash it is `s`. The worker
uses this value as the start nonce of the job cycle. -/
theorem niceHash_nonce_composition (s h : Nat) (hs : s < 2 ^ 32) (hh : h < 2 ^ 32) :
    niceHashNonce true s h = (s &&& 0x00FFFFFF) ||| (h &&& 0xFF000000) ∧
    niceHashNonce true s h % 2 ^ 24 = s % 2 ^ 24 ∧
    niceHashNonce true s h / 2 ^ 24 = h / 2 ^ 24 ∧
    niceHashNonce true s h < 2 ^ 32 ∧
    niceHashNonce false s h = s ∧ niceHashNonce false s h < 2 ^ 32 ∧
    (∀ (cfg : HardwareConfig) (gpu device : NvidiaDevice) (job : Job) (m_nonce : Nat),
      cfg.nvidia.devices.get? gpu.id = some device →
      (m_nonce + device.nonceOffset) % 4294967296 = s → job.nonce = h →
      startNonce cfg gpu job m_nonce = some (niceHashNonce job.isNiceHash s h)) := by
  refine ⟨rfl, mask_mod s h, mask_div s h hh, mask_lt s h, rfl, hs, ?_⟩
  intro cfg gpu device job m_nonce hdev hsum hjob
  simp only [startNonce, hdev, hsum, hjob]

/-- Claim C1 at start nonce `0x12345678` and nonce hint `0xAB000000`: the
composed nonce is `0xAB345678`. -/
theorem niceHash_nonce_composition_witness :
    niceHashNonce true 0x12345678 0xAB000000 = 0xAB345678 ∧
    niceHashNonce true 0x12345678 0xAB000000 % 2 ^ 24 = 0x12345678 % 2 ^ 24 ∧
    niceHashNonce true 0x12345678 0xAB000000 / 2 ^ 24 = 0xAB000000 / 2 ^ 24 :=
  ⟨by decide,
   (niceHash_nonce_composition 0x12345678 0xAB000000 (by decide) (by decide)).2.1,
   (niceHash_nonce_composition 0x12345678 0xAB000000 (by decide) (by decide)).2.2.1⟩

/-- Claim C10: a job cycle in which the hash invocation returns on the first
`k = rs.length` batches and throws on the next one, with the new-job signal
false throughout. The worker ends in the handler's `return`; its calls end
with the throwing hash invocation, the warning and the `freeState` of the
handler, whether or not that `freeState` throws and whatever the worker would
have observed afterwards; before them it has made exactly `k` throughput
callbacks, exactly `k` hash invocations, and one submission for each of the
`k` results that was successful, so at most `k`. -/
theorem device_fault_containment (ext : Externals) (gpu : NvidiaDevice) (threadNumber : Nat)
    (cfg : HardwareConfig) (locals : Locals) (round : Round) (rounds : List Round)
    (algorithm : NvidiaHash) (start : Nat) (rs : List HashResult) (what : String)
    (freeThrows : Bool) (rest : List Tick)
    (hstop : round.shouldStop = false)
    (halg : getNvidiaMiningAlgorithm ext round.job.algorithm = .ok algorithm)
    (hstart : startNonce (loadAlgorithm ext gpu cfg locals round.job algorithm).1 gpu round.job
      round.nonce = some start)
    (hticks : round.ticks = rs.map Tick.batch ++ Tick.fault what freeThrows :: rest) :
    ∃ before last,
      hash ext gpu threadNumber cfg locals (round :: rounds) =
        (.faulted, before ++ [Event.hash last,
          Event.warning ("Caught unexpected error from GPU hasher: " ++ what),
          Event.freeState]) ∧
      (throughputCalls before).length = rs.length ∧
      (hashCalls before).length = rs.length ∧
      submissions before =
        (rs.filter (fun r => r.success)).map (toJobSubmit round.job (gpuName gpu)) ∧
      (submissions before).length ≤ rs.length := by
  obtain ⟨before, last, heq, h1, h2, h3⟩ :=
    hashLoop_fault (loadAlgorithm ext gpu cfg locals round.job algorithm).1.noncesPerRound
      (loadAlgorithm ext gpu cfg locals round.job algorithm).2.1.state.launchParams.noncesPerRun
      (gpuName gpu) round.job what freeThrows rest rs start
  refine ⟨(loadAlgorithm ext gpu cfg locals round.job algorithm).2.2 ++
      [Event.initJob round.job.rawBlob (round.job.rawBlob.take 16) start round.job.target,
       Event.init] ++ before, last, ?_, ?_, ?_, ?_, ?_⟩
  · simp only [hash, hstop, Bool.false_eq_true, if_false, halg, hstart, hticks, heq,
      List.append_assoc]
  · have : throughputCalls (loadAlgorithm ext gpu cfg locals round.job algorithm).2.2 = [] := by
      unfold loadAlgorithm; split <;> rfl
    simp [throughputCalls_append, throughputCalls, h1, this]
  · have : hashCalls (loadAlgorithm ext gpu cfg locals round.job algorithm).2.2 = [] := by
      unfold loadAlgorithm; split <;> rfl
    simp [hashCalls_append, hashCalls, h3, this]
  · have : submissions (loadAlgorithm ext gpu cfg locals round.job algorithm).2.2 = [] := by
      unfold loadAlgorithm; split <;> rfl
    simp [submissions_append, submissions, h2, this]
  · have : submissions (loadAlgorithm ext gpu cfg locals round.job algorithm).2.2 = [] := by
      unfold loadAlgorithm; split <;> rfl
    simp only [submissions_append, submissions, h2, this, List.nil_append, List.length_map]
    exact List.length_filter_le _ _

/-- Claim C10 at a device whose hash invocation throws on its third batch:
exactly two throughput increments, at most two submissions, then nothing. -/
theorem device_fault_containment_witness :
    hash exampleExternals exampleDevice 0 exampleConfig Locals.init [faultyRound, faultyRound] =
      (.faulted,
        [Event.freeState, Event.initNonceOffsets 512, Event.initializeState 0 512 3,
         Event.initJob [1, 2, 3] [1, 2, 3] 5 4095, Event.init,
         Event.hash 5, Event.incrementHashesPerformed 1024 "GTX-0",
         Event.hash 1029, Event.incrementHashesPerformed 1024 "GTX-0",
         Event.submitValidHash
           { hash := [7], jobID := "42", nonce := 1030, target := 4095, hardwareName := "GTX-0" },
         Event.hash 2053,
         Event.warning "Caught unexpected error from GPU hasher: launch failed",
         Event.freeState]) ∧
    ∃ before last,
      hash exampleExternals exampleDevice 0 exampleConfig Locals.init [faultyRound, faultyRound] =
        (.faulted, before ++ [Event.hash last,
          Event.warning ("Caught unexpected error from GPU hasher: " ++ "launch failed"),
          Event.freeState]) ∧
      (throughputCalls before).length = 2 ∧
      (hashCalls before).length = 2 ∧
      submissions before =
        [{ hash := [7], jobID := "42", nonce := 1030, target := 4095, hardwareName := "GTX-0" }] ∧
      (submissions before).length ≤ 2 :=
  ⟨by decide,
   device_fault_containment exampleExternals exampleDevice 0 exampleConfig Locals.init
     faultyRound [faultyRound] { memory := 512, iterations := 3 } 5
     [{ success := false, hash := [], nonce := 0 }, { success := true, hash := [7], nonce := 1030 }]
     "launch failed" true [Tick.batch { success := true, hash := [8], nonce := 3000 }]
     rfl rfl rfl rfl⟩

theorem assignOffsets_get (width : NvidiaDevice → Nat) (ds : List NvidiaDevice) (next i : Nat)
    (d : NvidiaDevice) (h : ds.get? i = some d) :
    (assignOffsets width next ds).1.get? i =
      some (if d.enabled then { d with nonceOffset := next + slotStart width ds i } else d) := by
  induction ds generalizing next i with
  | nil => simp at h
  | cons d0 ds ih =>
    cases i with
    | zero =>
      simp only [List.get?_cons_zero, Option.some.injEq] at h
      subst h
      cases he : d0.enabled <;> simp [assignOffsets, he, slotStart]
    | succ i =>
      simp only [List.get?_cons_succ] at h
      cases he : d0.enabled
      · simp only [assignOffsets, he, Bool.false_eq_true, if_false, List.get?_cons_succ,
          slotStart, zero_add]
        exact ih next i h
      · simp only [assignOffsets, he, if_true, List.get?_cons_succ, slotStart]
        rw [ih (next + width d0) i h, Nat.add_assoc]

/-- The nonces of the hash invocations of the inner loop: batch `k + 1` is
invoked at `nonceAt noncesPerRound start k`. -/
theorem hashCalls_hashLoop (noncesPerRound noncesPerRun : Nat) (name : String) (job : Job)
    (rs : List HashResult) (start : Nat) (hstart : start < 4294967296) :
    hashCalls (hashLoop noncesPerRound noncesPerRun name job start (rs.map Tick.batch)).2 =
      (List.range rs.length).map (nonceAt noncesPerRound start) := by
  induction rs generalizing start with
  | nil => rfl
  | cons r rs ih =>
    rw [List.map_cons, hashLoop]
    have hrec := ih ((start + noncesPerRound) % 4294967296) (Nat.mod_lt _ (by norm_num))
    have hshift : ∀ k, nonceAt noncesPerRound ((start + noncesPerRound) % 4294967296) k =
        nonceAt noncesPerRound start (k + 1) := by
      intro k
      simp only [nonceAt, Nat.mod_add_mod]
      congr 1
      ring
    have h0 : nonceAt noncesPerRound start 0 = start := by
      simp only [nonceAt, Nat.zero_mul, Nat.add_zero]
      exact Nat.mod_eq_of_lt hstart
    cases hr : r.success <;>
      simp [hashCalls, hashCalls_append, hrec, List.range_succ_eq_map, h0, hshift,
        Function.comp_def]

end Nvidia

/-! # Properties of the orchestrator and of the job cycle -/

namespace Nvidia

theorem raiseNewJobAvailable_eq (signals : List Bool) (count : Nat) :
    raiseNewJobAvailable signals count =
      if count ≤ signals.length then some (List.replicate count true ++ signals.drop count)
      else none := by
  induction count with
  | zero => simp [raiseNewJobAvailable]
  | succ i ih =>
    rw [raiseNewJobAvailable, ih]
    by_cases h : i + 1 ≤ signals.length
    · have h1 : i ≤ signals.length := by omega
      have h2 : i < (List.replicate i true ++ List.drop i signals).length := by
        simp only [List.length_append, List.length_replicate, List.length_drop]
        omega
      simp only [h1, h, if_true, h2, Option.some.injEq]
      apply List.ext_getElem?
      intro j
      simp only [List.getElem?_set, List.getElem?_append, List.getElem?_replicate,
        List.length_replicate, List.getElem?_drop, List.length_append, List.length_drop]
      by_cases hj : j < i
      · have e1 : ¬ (i = j) := by omega
        have e2 : j < i + 1 := by omega
        simp [hj, e1, e2]
      · by_cases hji : j = i
        · subst hji
          have e3 : j + (signals.length - j) = signals.length := by omega
          have e4 : j < signals.length := by omega
          simp [e3, e4]
        · have e1 : ¬ (i = j) := by omega
          have e2 : ¬ (j < i + 1) := by omega
          have e3 : i + (j - i) = i + 1 + (j - (i + 1)) := by omega
          simp [hj, e1, e2, e3]
    · simp only [h, if_false]
      by_cases h1 : i ≤ signals.length
      · have h2 : ¬ (i < (List.replicate i true ++ List.drop i signals).length) := by
          simp only [List.length_append, List.length_replicate, List.length_drop]
          omega
        have h3 : signals.length ≤ i := by omega
        simp [h1, h3]
      · simp [h1]

theorem raiseNewJobAvailable_full (signals : List Bool) :
    raiseNewJobAvailable signals signals.length = some (List.replicate signals.length true) := by
  rw [raiseNewJobAvailable_eq]
  simp

theorem threadsFor_append (gpus : List NvidiaDevice) (gpu : NvidiaDevice) (first : Nat) :
    threadsFor (gpus ++ [gpu]) first =
      threadsFor gpus first ++ [{ gpu := gpu, threadNumber := first + gpus.length }] := by
  induction gpus generalizing first with
  | nil => simp [threadsFor]
  | cons g gpus ih =>
    have e : first + 1 + gpus.length = first + (gpus.length + 1) := by omega
    rw [List.cons_append, threadsFor, threadsFor, ih (first + 1), List.length_cons, e,
      List.cons_append]

theorem threadsFor_length (gpus : List NvidiaDevice) (first : Nat) :
    (threadsFor gpus first).length = gpus.length := by
  induction gpus generalizing first with
  | nil => rfl
  | cons g gpus ih => simp [threadsFor, ih]

theorem threadsFor_get (gpus : List NvidiaDevice) (first i : Nat) :
    (threadsFor gpus first).get? i =
      (gpus.get? i).map (fun gpu => { gpu := gpu, threadNumber := first + i }) := by
  induction gpus generalizing first i with
  | nil => simp [threadsFor]
  | cons g gpus ih =>
    cases i with
    | zero => simp [threadsFor]
    | succ i =>
      simp only [threadsFor, List.get?_cons_succ, ih]
      congr 1
      funext gpu
      congr 1
      omega

theorem spawnThreads_eq (gpus : List NvidiaDevice) (count : Nat) (h : count ≤ gpus.length) :
    spawnThreads gpus count = some (threadsFor (gpus.take count) 0) := by
  induction count with
  | zero => simp [spawnThreads, threadsFor]
  | succ i ih =>
    have hi : i < gpus.length := by omega
    rw [spawnThreads, ih (by omega)]
    have hget : gpus.get? i = some gpus[i] := by
      rw [List.get?_eq_getElem?]
      exact List.getElem?_eq_getElem hi
    simp only [hget]
    have htake : gpus.take (i + 1) = gpus.take i ++ [gpus[i]] := by
      rw [List.take_succ, List.getElem?_eq_getElem hi]
      rfl
    rw [htake, threadsFor_append]
    simp [List.length_take, Nat.min_eq_left (Nat.le_of_lt hi)]

theorem spawnThreads_none (gpus : List NvidiaDevice) (count : Nat) (h : gpus.length < count) :
    spawnThreads gpus count = none := by
  induction count with
  | zero => omega
  | succ i ih =>
    rw [spawnThreads]
    by_cases hi : gpus.length < i
    · rw [ih hi]
    · have hget : gpus.get? i = none := List.get?_len_le (by omega)
      rw [hget]
      cases spawnThreads gpus i <;> rfl

theorem stop_eq (self : Members) :
    stop self =
      if self.m_numAvailableGPUs ≤ self.m_newJobAvailable.length then
        some ({ self with
                  m_shouldStop := true,
                  m_newJobAvailable := List.replicate self.m_numAvailableGPUs true
                    ++ self.m_newJobAvailable.drop self.m_numAvailableGPUs,
                  m_threads := [] },
          self.m_threads.map Action.join)
      else none := by
  unfold stop
  rw [raiseNewJobAvailable_eq]
  by_cases h : self.m_numAvailableGPUs ≤ self.m_newJobAvailable.length
  · simp only [h, if_true]
  · simp only [h, if_false]

theorem setNewJob_eq (self : Members) (job : Job) (initialNonce : Nat) :
    setNewJob self job initialNonce =
      if self.m_numAvailableGPUs ≤ self.m_newJobAvailable.length then
        some { self with
                 m_nonce := initialNonce,
                 m_currentJob := job,
                 m_newJobAvailable := List.replicate self.m_numAvailableGPUs true
                   ++ self.m_newJobAvailable.drop self.m_numAvailableGPUs }
      else none := by
  unfold setNewJob
  rw [raiseNewJobAvailable_eq]
  by_cases h : self.m_numAvailableGPUs ≤ self.m_newJobAvailable.length
  · simp only [h, if_true]
  · simp only [h, if_false]

/-- `start` from a state whose device count is the length of
`m_availableDevices` and whose signal vector, when there are threads, has a
slot for every device. -/
theorem start_eq (self : Members) (job : Job) (initialNonce : Nat)
    (hcount : self.m_numAvailableGPUs = self.m_availableDevices.length)
    (hslots : self.m_threads = [] ∨ self.m_numAvailableGPUs ≤ self.m_newJobAvailable.length) :
    start self job initialNonce =
      some ({ self with
                m_shouldStop := false,
                m_nonce := initialNonce,
                m_currentJob := job,
                m_newJobAvailable := List.replicate self.m_numAvailableGPUs false,
                m_threads := threadsFor self.m_availableDevices 0 },
        self.m_threads.map Action.join
          ++ (threadsFor self.m_availableDevices 0).map Action.spawn) := by
  have hspawn : spawnThreads self.m_availableDevices self.m_numAvailableGPUs =
      some (threadsFor self.m_availableDevices 0) := by
    rw [spawnThreads_eq _ _ (by omega), hcount, List.take_length]
  unfold start
  by_cases hthreads : self.m_threads = []
  · simp only [hthreads, List.isEmpty_nil, if_true, hspawn, List.nil_append, List.map_nil]
  · have hle : self.m_numAvailableGPUs ≤ self.m_newJobAvailable.length := by
      rcases hslots with h | h
      · exact absurd h hthreads
      · exact h
    have hempty : self.m_threads.isEmpty = false := by
      cases hm : self.m_threads with
      | nil => exact absurd hm hthreads
      | cons t ts => rfl
    simp only [hempty, Bool.false_eq_true, if_false, stop_eq, hle, if_true, hspawn,
      List.nil_append]

/-- What holds in every state the orchestrator reaches. -/
theorem reached_invariant {started : Bool} {self : Members} (h : Reached started self) :
    self.m_numAvailableGPUs = self.m_availableDevices.length ∧
    (∀ gpu ∈ self.m_availableDevices, gpu.enabled = true) ∧
    (started = true → self.m_newJobAvailable.length = self.m_numAvailableGPUs) ∧
    (started = false → self.m_threads = []) := by
  induction h with
  | construct hardwareConfig flag job nonce =>
    refine ⟨rfl, ?_, fun h => Bool.noConfusion h, fun _ => rfl⟩
    intro gpu hgpu
    simp only [construct, List.mem_filter] at hgpu
    exact hgpu.2
  | @start started self after actions job nonce _ hstart ih =>
    obtain ⟨h1, h2, h3, h4⟩ := ih
    have hslots : self.m_threads = [] ∨
        self.m_numAvailableGPUs ≤ self.m_newJobAvailable.length := by
      cases started with
      | false => exact Or.inl (h4 rfl)
      | true => exact Or.inr (by rw [h3 rfl])
    rw [start_eq self job nonce h1 hslots] at hstart
    simp only [Option.some.injEq, Prod.mk.injEq] at hstart
    obtain ⟨rfl, _⟩ := hstart
    exact ⟨h1, h2, fun _ => List.length_replicate _ _, fun h => Bool.noConfusion h⟩
  | @stop started self after actions _ hstop ih =>
    obtain ⟨h1, h2, h3, h4⟩ := ih
    rw [stop_eq] at hstop
    split at hstop
    · rename_i hle
      simp only [Option.some.injEq, Prod.mk.injEq] at hstop
      obtain ⟨rfl, _⟩ := hstop
      refine ⟨h1, h2, fun hs => ?_, fun _ => rfl⟩
      have := h3 hs
      simp only [List.length_append, List.length_replicate, List.length_drop]
      omega
    · cases hstop
  | @setNewJob started self after job nonce _ hset ih =>
    obtain ⟨h1, h2, h3, h4⟩ := ih
    rw [setNewJob_eq] at hset
    split at hset
    · rename_i hle
      simp only [Option.some.injEq] at hset
      subst hset
      refine ⟨h1, h2, fun hs => ?_, h4⟩
      have := h3 hs
      simp only [List.length_append, List.length_replicate, List.length_drop]
      omega
    · cases hset
  | clearNewJobAvailable threadNumber _ _ ih =>
    obtain ⟨h1, h2, h3, h4⟩ := ih
    exact ⟨h1, h2, fun hs => (List.length_set _ _ _).trans (h3 hs), h4⟩
  | initNonceOffsets ext memory _ ih => exact ih

theorem replicate_get (count i : Nat) (value : Bool) (h : i < count) :
    (List.replicate count value).get? i = some value := by
  rw [List.get?_eq_getElem?, List.getElem?_replicate, if_pos h]

theorem raised_get (count i : Nat) (signals : List Bool) (h : i < count) :
    (List.replicate count true ++ signals.drop count).get? i = some true := by
  rw [List.get?_eq_getElem?, List.getElem?_append_left (by simpa using h),
    List.getElem?_replicate, if_pos h]

/-- The modelled partitioner keeps every device in its place and rewrites
nothing but nonce offsets. -/
theorem initNonceOffsets_preserves (noncesPerRun : Nat → Nat → Nat) (cfg : HardwareConfig)
    (memory i : Nat) (d : NvidiaDevice) (h : cfg.nvidia.devices.get? i = some d) :
    ∃ offset, (initNonceOffsets noncesPerRun cfg memory).nvidia.devices.get? i =
      some { d with nonceOffset := offset } := by
  simp only [initNonceOffsets]
  rw [assignOffsets_get _ _ 0 i d h]
  obtain ⟨enabled, name, id, nonceOffset⟩ := d
  cases enabled
  · exact ⟨nonceOffset, rfl⟩
  · exact ⟨0 + slotStart (fun d => noncesPerRun memory d.id) cfg.nvidia.devices i, rfl⟩

/-- Claim C11 fails on the code: on a freshly constructed orchestrator with
one enabled device, no worker and no signal slot yet, `stop` writes
`m_newJobAvailable[0]`, outside the empty vector. -/
theorem stop_before_start_out_of_range :
    (construct exampleConfig false exampleJob 0).m_threads = [] ∧
    (construct exampleConfig false exampleJob 0).m_numAvailableGPUs = 1 ∧
    (construct exampleConfig false exampleJob 0).m_newJobAvailable = [] ∧
    stop (construct exampleConfig false exampleJob 0) = none := by
  decide

/-- Claim C12: in a reached state with running workers, `start(job, nonce)` is
`stop()` followed by `start(job, nonce)`. It succeeds; it first joins every
thread that was running and then spawns the new ones, one for each available
(enabled) device in order, each a fresh run of `Nvidia::hash`; the stop flag is
false, the job and nonce are the arguments and every signal slot is false. -/
theorem restart_is_stop_then_start {started : Bool} (self : Members) (job : Job)
    (initialNonce : Nat) (hreached : Reached started self) (hrunning : self.m_threads ≠ []) :
    start self job initialNonce = stopThenStart self job initialNonce ∧
    ∃ after,
      start self job initialNonce =
        some (after, self.m_threads.map Action.join ++ after.m_threads.map Action.spawn) ∧
      after.m_threads = threadsFor self.m_availableDevices 0 ∧
      after.m_threads.length = self.m_availableDevices.length ∧
      (∀ gpu ∈ self.m_availableDevices, gpu.enabled = true) ∧
      after.m_shouldStop = false ∧ after.m_currentJob = job ∧ after.m_nonce = initialNonce ∧
      after.m_newJobAvailable = List.replicate self.m_numAvailableGPUs false ∧
      after.m_availableDevices = self.m_availableDevices := by
  obtain ⟨h1, h2, h3, h4⟩ := reached_invariant hreached
  have hstarted : started = true := by
    cases started with
    | false => exact absurd (h4 rfl) hrunning
    | true => rfl
  have hle : self.m_numAvailableGPUs ≤ self.m_newJobAvailable.length := by
    rw [h3 hstarted]
  constructor
  · rw [start_eq self job initialNonce h1 (Or.inr hle)]
    unfold stopThenStart
    rw [stop_eq, if_pos hle]
    have hs := start_eq
      { self with
          m_shouldStop := true,
          m_newJobAvailable := List.replicate self.m_numAvailableGPUs true
            ++ self.m_newJobAvailable.drop self.m_numAvailableGPUs,
          m_threads := [] } job initialNonce h1 (Or.inl rfl)
    simp only [hs, List.map_nil, List.nil_append]
  · exact ⟨_, start_eq self job initialNonce h1 (Or.inr hle), rfl, threadsFor_length _ _, h2,
      rfl, rfl, rfl, rfl, rfl⟩

/-- Claim C12 at the orchestrator of `threeDevices` with its two workers
running: a second `start` joins both and spawns two new ones. -/
theorem restart_is_stop_then_start_witness :
    start startedExample.1 exampleJob 9 = stopThenStart startedExample.1 exampleJob 9 ∧
    (start startedExample.1 exampleJob 9).map (fun r => r.2) =
      some [Action.join { gpu := gtx, threadNumber := 0 },
            Action.join { gpu := { enabled := true, name := "RTX", id := 2, nonceOffset := 0 },
                          threadNumber := 1 },
            Action.spawn { gpu := gtx, threadNumber := 0 },
            Action.spawn { gpu := { enabled := true, name := "RTX", id := 2, nonceOffset := 0 },
                           threadNumber := 1 }] :=
  ⟨(restart_is_stop_then_start startedExample.1 exampleJob 9
      (Reached.start exampleJob 7 (Reached.construct threeDevices false exampleJob 0)
        (by decide : start (construct threeDevices false exampleJob 0) exampleJob 7 =
          some (startedExample.1, startedExample.2)))
      (by decide)).1,
   by decide⟩

/-- Claim C13: construction followed by `start(job, nonce)` succeeds. After it
the stop flag is false, the job and the nonce are the arguments, there is one
signal slot for each enabled device and every slot is false, and the threads
are one for each enabled device of the configuration, in order, thread `i`
bound to the `i`-th enabled device and numbered `i`; no thread is bound to a
disabled device, and nothing was joined. -/
theorem construct_then_start (hardwareConfig : HardwareConfig) (m_shouldStop : Bool)
    (m_currentJob job : Job) (m_nonce initialNonce : Nat) :
    ∃ after,
      start (construct hardwareConfig m_shouldStop m_currentJob m_nonce) job initialNonce =
        some (after, after.m_threads.map Action.spawn) ∧
      after.m_shouldStop = false ∧ after.m_currentJob = job ∧ after.m_nonce = initialNonce ∧
      after.m_newJobAvailable =
        List.replicate (hardwareConfig.nvidia.devices.filter (fun d => d.enabled)).length false ∧
      after.m_threads.length = (hardwareConfig.nvidia.devices.filter (fun d => d.enabled)).length ∧
      (∀ i, after.m_threads.get? i =
        ((hardwareConfig.nvidia.devices.filter (fun d => d.enabled)).get? i).map
          (fun gpu => { gpu := gpu, threadNumber := i })) ∧
      (∀ thread ∈ after.m_threads,
        thread.gpu.enabled = true ∧ thread.gpu ∈ hardwareConfig.nvidia.devices) := by
  refine ⟨{ construct hardwareConfig m_shouldStop m_currentJob m_nonce with
      m_shouldStop := false,
      m_nonce := initialNonce,
      m_currentJob := job,
      m_newJobAvailable := List.replicate
        (construct hardwareConfig m_shouldStop m_currentJob m_nonce).m_numAvailableGPUs false,
      m_threads := threadsFor
        (construct hardwareConfig m_shouldStop m_currentJob m_nonce).m_availableDevices 0 },
    ?_, rfl, rfl, rfl, rfl, ?_, ?_, ?_⟩
  · rw [start_eq _ job initialNonce rfl (Or.inl rfl)]
    rfl
  · exact threadsFor_length _ _
  · intro i
    have := threadsFor_get (hardwareConfig.nvidia.devices.filter (fun d => d.enabled)) 0 i
    simp only [Nat.zero_add] at this
    exact this
  · intro thread hthread
    obtain ⟨i, hi⟩ := List.mem_iff_get?.mp hthread
    have hget := threadsFor_get (hardwareConfig.nvidia.devices.filter (fun d => d.enabled)) 0 i
    have hi' : (threadsFor (hardwareConfig.nvidia.devices.filter (fun d => d.enabled)) 0).get? i
        = some thread := hi
    rw [hget] at hi'
    cases hg : (hardwareConfig.nvidia.devices.filter (fun d => d.enabled)).get? i with
    | none => rw [hg] at hi'; cases hi'
    | some gpu =>
      rw [hg] at hi'
      simp only [Option.map_some', Option.some.injEq] at hi'
      subst hi'
      have hmem := List.mem_iff_get?.mpr ⟨i, hg⟩
      simp only [List.mem_filter] at hmem
      exact ⟨hmem.2, hmem.1⟩

/-- Claim C14: in every state reached after a `start`, `setNewJob(job, nonce)`
succeeds, stores the job and the nonce, sets every signal slot to true, and
leaves the threads, the stop flag, the available devices, their count and the
hardware configuration as they were. -/
theorem setNewJob_frame (self : Members) (job : Job) (initialNonce : Nat)
    (hreached : Reached true self) :
    ∃ after,
      setNewJob self job initialNonce = some after ∧
      after.m_currentJob = job ∧ after.m_nonce = initialNonce ∧
      after.m_newJobAvailable = List.replicate self.m_numAvailableGPUs true ∧
      after.m_newJobAvailable.length = self.m_newJobAvailable.length ∧
      (∀ i, i < self.m_numAvailableGPUs → after.m_newJobAvailable.get? i = some true) ∧
      after.m_threads = self.m_threads ∧ after.m_shouldStop = self.m_shouldStop ∧
      after.m_availableDevices = self.m_availableDevices ∧
      after.m_numAvailableGPUs = self.m_numAvailableGPUs ∧
      after.m_hardwareConfig = self.m_hardwareConfig := by
  obtain ⟨_, _, h3, _⟩ := reached_invariant hreached
  have hlen := h3 rfl
  have hdrop : self.m_newJobAvailable.drop self.m_numAvailableGPUs = [] := by
    rw [← hlen]
    exact List.drop_length _
  refine ⟨{ self with
      m_nonce := initialNonce,
      m_currentJob := job,
      m_newJobAvailable := List.replicate self.m_numAvailableGPUs true },
    ?_, rfl, rfl, rfl, ?_, ?_, rfl, rfl, rfl, rfl, rfl⟩
  · rw [setNewJob_eq, if_pos (by omega), hdrop, List.append_nil]
  · simp only [List.length_replicate]
    exact hlen.symm
  · intro i hi
    exact replicate_get _ _ _ hi

/-- Claim C14 at the started orchestrator of `threeDevices`. -/
theorem setNewJob_frame_witness :
    setNewJob startedExample.1 exampleJob 9 =
      some { startedExample.1 with m_nonce := 9, m_newJobAvailable := [true, true] } ∧
    ∃ after,
      setNewJob startedExample.1 exampleJob 9 = some after ∧
      after.m_currentJob = exampleJob ∧ after.m_nonce = 9 ∧
      after.m_newJobAvailable = List.replicate startedExample.1.m_numAvailableGPUs true ∧
      after.m_newJobAvailable.length = startedExample.1.m_newJobAvailable.length ∧
      (∀ i, i < startedExample.1.m_numAvailableGPUs →
        after.m_newJobAvailable.get? i = some true) ∧
      after.m_threads = startedExample.1.m_threads ∧
      after.m_shouldStop = startedExample.1.m_shouldStop ∧
      after.m_availableDevices = startedExample.1.m_availableDevices ∧
      after.m_numAvailableGPUs = startedExample.1.m_numAvailableGPUs ∧
      after.m_hardwareConfig = startedExample.1.m_hardwareConfig :=
  ⟨by decide,
   setNewJob_frame startedExample.1 exampleJob 9
     (Reached.start exampleJob 7 (Reached.construct threeDevices false exampleJob 0)
       (by decide : start (construct threeDevices false exampleJob 0) exampleJob 7 =
         some (startedExample.1, startedExample.2)))⟩

theorem startNonce_lt (cfg : HardwareConfig) (gpu : NvidiaDevice) (job : Job)
    (m_nonce start : Nat) (h : startNonce cfg gpu job m_nonce = some start) :
    start < 4294967296 := by
  unfold startNonce at h
  split at h
  · cases h
  · simp only [Option.some.injEq] at h
    subst h
    unfold niceHashNonce
    split
    · exact mask_lt _ _
    · exact Nat.mod_lt _ (by norm_num)

theorem nonceAt_zero (noncesPerRound start : Nat) (h : start < 4294967296) :
    nonceAt noncesPerRound start 0 = start := by
  simp only [nonceAt, Nat.zero_mul, Nat.add_zero]
  exact Nat.mod_eq_of_lt h

theorem nonceAt_succ (noncesPerRound start k : Nat) :
    nonceAt noncesPerRound ((start + noncesPerRound) % 4294967296) k =
      nonceAt noncesPerRound start (k + 1) := by
  simp only [nonceAt, Nat.mod_add_mod]
  congr 1
  ring

/-- The calls of the inner loop on any observation: one throughput callback
for each completed batch, one submission for each completed batch with a
successful result, and hash invocation `k + 1` at `nonceAt noncesPerRound
start k`. -/
theorem hashLoop_calls (noncesPerRound noncesPerRun : Nat) (name : String) (job : Job)
    (ticks : List Tick) (start : Nat) (hstart : start < 4294967296) :
    throughputCalls (hashLoop noncesPerRound noncesPerRun name job start ticks).2 =
      List.replicate (completedBatches ticks).length (noncesPerRun, name) ∧
    submissions (hashLoop noncesPerRound noncesPerRun name job start ticks).2 =
      ((completedBatches ticks).filter (fun r => r.success)).map (toJobSubmit job name) ∧
    (completedBatches ticks).length ≤
      (hashCalls (hashLoop noncesPerRound noncesPerRun name job start ticks).2).length ∧
    ∀ k n, (hashCalls (hashLoop noncesPerRound noncesPerRun name job start ticks).2).get? k
        = some n → n = nonceAt noncesPerRound start k := by
  induction ticks generalizing start with
  | nil =>
    refine ⟨rfl, rfl, Nat.le_refl _, fun k n h => ?_⟩
    simp [hashLoop, hashCalls] at h
  | cons tick ticks ih =>
    cases tick with
    | newJob =>
      refine ⟨rfl, rfl, Nat.le_refl _, fun k n h => ?_⟩
      simp [hashLoop, hashCalls] at h
    | fault what freeThrows =>
      refine ⟨rfl, rfl, Nat.zero_le _, fun k n h => ?_⟩
      cases k with
      | zero =>
        simp only [hashLoop, hashCalls, List.get?_cons_zero, Option.some.injEq] at h
        rw [nonceAt_zero _ _ hstart]
        exact h.symm
      | succ k => simp [hashLoop, hashCalls] at h
    | batch r =>
      obtain ⟨h1, h2, h3, h4⟩ :=
        ih ((start + noncesPerRound) % 4294967296) (Nat.mod_lt _ (by norm_num))
      rw [hashLoop]
      refine ⟨?_, ?_, ?_, ?_⟩
      · cases hr : r.success <;>
          simp [throughputCalls, throughputCalls_append, h1, completedBatches,
            List.replicate_succ]
      · cases hr : r.success <;>
          simp [submissions, submissions_append, h2, completedBatches, hr, toJobSubmit]
      · cases hr : r.success <;>
          simp [hashCalls, hashCalls_append, completedBatches, h3]
      · intro k n h
        have hcalls : hashCalls
            ([Event.hash start, Event.incrementHashesPerformed noncesPerRun name]
              ++ (if r.success then
                    [Event.submitValidHash
                      { hash := r.hash, jobID := job.jobID, nonce := r.nonce,
                        target := job.target, hardwareName := name }]
                  else [])
              ++ (hashLoop noncesPerRound noncesPerRun name job
                    ((start + noncesPerRound) % 4294967296) ticks).2) =
            start :: hashCalls (hashLoop noncesPerRound noncesPerRun name job
              ((start + noncesPerRound) % 4294967296) ticks).2 := by
          cases hr : r.success <;> simp [hashCalls, hashCalls_append]
        simp only at h
        rw [hcalls] at h
        cases k with
        | zero =>
          simp only [List.get?_cons_zero, Option.some.injEq] at h
          rw [nonceAt_zero _ _ hstart]
          exact h.symm
        | succ k =>
          simp only [List.get?_cons_succ] at h
          rw [← nonceAt_succ]
          exact h4 k n h

/-- The calls of one pass through the outer loop: those of the job-load step,
`initJob` and `init`, then those of the inner loop, then whatever follows. -/
theorem hash_cycle (ext : Externals) (gpu : NvidiaDevice) (threadNumber : Nat)
    (cfg : HardwareConfig) (locals : Locals) (round : Round) (rounds : List Round)
    (algorithm : NvidiaHash) (start : Nat) (hstop : round.shouldStop = false)
    (halg : getNvidiaMiningAlgorithm ext round.job.algorithm = .ok algorithm)
    (hstart : startNonce (loadAlgorithm ext gpu cfg locals round.job algorithm).1 gpu round.job
      round.nonce = some start) :
    ∃ after,
      (hash ext gpu threadNumber cfg locals (round :: rounds)).2 =
        (loadAlgorithm ext gpu cfg locals round.job algorithm).2.2
          ++ [Event.initJob round.job.rawBlob (round.job.rawBlob.take 16) start round.job.target,
              Event.init]
          ++ (hashLoop (loadAlgorithm ext gpu cfg locals round.job algorithm).1.noncesPerRound
                (loadAlgorithm ext gpu cfg locals round.job
                  algorithm).2.1.state.launchParams.noncesPerRun
                (gpuName gpu) round.job start round.ticks).2
          ++ after := by
  simp only [hash, hstop, Bool.false_eq_true, if_false, halg, hstart]
  split
  · exact ⟨[], by simp⟩
  · exact ⟨[], by simp⟩
  · exact ⟨_, by rw [List.append_assoc _ [Event.clearNewJobAvailable threadNumber]]⟩

theorem loadAlgorithm_calls (ext : Externals) (gpu : NvidiaDevice) (cfg : HardwareConfig)
    (locals : Locals) (job : Job) (algorithm : NvidiaHash) :
    throughputCalls (loadAlgorithm ext gpu cfg locals job algorithm).2.2 = [] ∧
    submissions (loadAlgorithm ext gpu cfg locals job algorithm).2.2 = [] ∧
    hashCalls (loadAlgorithm ext gpu cfg locals job algorithm).2.2 = [] := by
  unfold loadAlgorithm
  split <;> exact ⟨rfl, rfl, rfl⟩

/-- Claim C16: the callbacks of a job cycle. The worker's calls are those of
the job-load step, `initJob` and `init`, then those of the inner loop. Among
the calls of the inner loop there is one throughput callback for each completed
batch, with the state's `noncesPerRun` and the label `name-id` of the device,
and one submission for each completed batch whose result is successful and
none for the others, carrying the result's hash and nonce, the job's id and
target and the same label; the calls before the inner loop contain no
callback. -/
theorem callback_contract (ext : Externals) (gpu : NvidiaDevice) (threadNumber : Nat)
    (cfg : HardwareConfig) (locals : Locals) (round : Round) (rounds : List Round)
    (algorithm : NvidiaHash) (start : Nat) (hstop : round.shouldStop = false)
    (halg : getNvidiaMiningAlgorithm ext round.job.algorithm = .ok algorithm)
    (hstart : startNonce (loadAlgorithm ext gpu cfg locals round.job algorithm).1 gpu round.job
      round.nonce = some start) :
    ∃ before inner after,
      (hash ext gpu threadNumber cfg locals (round :: rounds)).2 = before ++ inner ++ after ∧
      inner = (hashLoop (loadAlgorithm ext gpu cfg locals round.job algorithm).1.noncesPerRound
        (loadAlgorithm ext gpu cfg locals round.job algorithm).2.1.state.launchParams.noncesPerRun
        (gpuName gpu) round.job start round.ticks).2 ∧
      throughputCalls before = [] ∧ submissions before = [] ∧
      throughputCalls inner =
        List.replicate (completedBatches round.ticks).length
          ((loadAlgorithm ext gpu cfg locals round.job
              algorithm).2.1.state.launchParams.noncesPerRun,
            gpu.name ++ "-" ++ toString gpu.id) ∧
      submissions inner =
        ((completedBatches round.ticks).filter (fun r => r.success)).map
          (fun r => { hash := r.hash, jobID := round.job.jobID, nonce := r.nonce,
                      target := round.job.target,
                      hardwareName := gpu.name ++ "-" ++ toString gpu.id }) := by
  obtain ⟨after, h⟩ := hash_cycle ext gpu threadNumber cfg locals round rounds algorithm start
    hstop halg hstart
  obtain ⟨c1, c2, _, _⟩ := hashLoop_calls
    (loadAlgorithm ext gpu cfg locals round.job algorithm).1.noncesPerRound
    (loadAlgorithm ext gpu cfg locals round.job algorithm).2.1.state.launchParams.noncesPerRun
    (gpuName gpu) round.job round.ticks start (startNonce_lt _ _ _ _ _ hstart)
  obtain ⟨l1, l2, _⟩ := loadAlgorithm_calls ext gpu cfg locals round.job algorithm
  refine ⟨_, _, after, h, rfl, ?_, ?_, c1, c2⟩
  · simp [throughputCalls_append, l1, throughputCalls]
  · simp [submissions_append, l2, submissions]

/-- Claim C16 at a job cycle of two batches, the second with a share: two
throughput callbacks and one submission. -/
theorem callback_contract_witness :
    throughputCalls (hash exampleExternals exampleDevice 0 exampleConfig Locals.init
      [switchedRound]).2 = [(1024, "GTX-0"), (1024, "GTX-0")] ∧
    submissions (hash exampleExternals exampleDevice 0 exampleConfig Locals.init
      [switchedRound]).2 =
      [{ hash := [7], jobID := "42", nonce := 1030, target := 4095, hardwareName := "GTX-0" }] ∧
    ∃ before inner after,
      (hash exampleExternals exampleDevice 0 exampleConfig Locals.init [switchedRound]).2 =
        before ++ inner ++ after ∧
      inner = (hashLoop (loadAlgorithm exampleExternals exampleDevice exampleConfig Locals.init
          switchedRound.job { memory := 512, iterations := 3 }).1.noncesPerRound
        (loadAlgorithm exampleExternals exampleDevice exampleConfig Locals.init switchedRound.job
          { memory := 512, iterations := 3 }).2.1.state.launchParams.noncesPerRun
        (gpuName exampleDevice) switchedRound.job 5 switchedRound.ticks).2 ∧
      throughputCalls before = [] ∧ submissions before = [] ∧
      throughputCalls inner =
        List.replicate (completedBatches switchedRound.ticks).length
          ((loadAlgorithm exampleExternals exampleDevice exampleConfig Locals.init
              switchedRound.job { memory := 512, iterations := 3 }).2.1.state.launchParams.noncesPerRun,
            exampleDevice.name ++ "-" ++ toString exampleDevice.id) ∧
      submissions inner =
        ((completedBatches switchedRound.ticks).filter (fun r => r.success)).map
          (fun r => { hash := r.hash, jobID := switchedRound.job.jobID, nonce := r.nonce,
                      target := switchedRound.job.target,
                      hardwareName := exampleDevice.name ++ "-" ++ toString exampleDevice.id }) :=
  ⟨by decide, by decide,
   callback_contract exampleExternals exampleDevice 0 exampleConfig Locals.init switchedRound []
     { memory := 512, iterations := 3 } 5 rfl rfl rfl⟩

/-- Claim C17: the nonce schedule of a job cycle. With `s` the shared nonce
plus the nonce offset of `devices[gpu.id]` modulo `2^32`, the start nonce is
`s`, or `(s & 0x00FFFFFF) | (hint & 0xFF000000)` when the job is NiceHash, and
hash invocation `k + 1` of the cycle is made at
`(start + k * noncesPerRound) mod 2^32`, where `noncesPerRound` is the member
of the hardware configuration and not the device's own batch size; there is
such an invocation for every completed batch. -/
theorem nonce_schedule (ext : Externals) (gpu : NvidiaDevice) (threadNumber : Nat)
    (cfg : HardwareConfig) (locals : Locals) (round : Round) (rounds : List Round)
    (algorithm : NvidiaHash) (device : NvidiaDevice) (hstop : round.shouldStop = false)
    (halg : getNvidiaMiningAlgorithm ext round.job.algorithm = .ok algorithm)
    (hdevice : (loadAlgorithm ext gpu cfg locals round.job algorithm).1.nvidia.devices.get? gpu.id
      = some device) :
    ∃ before inner after,
      (hash ext gpu threadNumber cfg locals (round :: rounds)).2 = before ++ inner ++ after ∧
      hashCalls before = [] ∧
      inner = (hashLoop (loadAlgorithm ext gpu cfg locals round.job algorithm).1.noncesPerRound
        (loadAlgorithm ext gpu cfg locals round.job algorithm).2.1.state.launchParams.noncesPerRun
        (gpuName gpu) round.job
        (if round.job.isNiceHash then
          (((round.nonce + device.nonceOffset) % 4294967296) &&& 0x00FFFFFF)
            ||| (round.job.nonce &&& 0xFF000000)
         else (round.nonce + device.nonceOffset) % 4294967296) round.ticks).2 ∧
      (completedBatches round.ticks).length ≤ (hashCalls inner).length ∧
      ∀ k n, (hashCalls inner).get? k = some n →
        n = ((if round.job.isNiceHash then
                (((round.nonce + device.nonceOffset) % 4294967296) &&& 0x00FFFFFF)
                  ||| (round.job.nonce &&& 0xFF000000)
              else (round.nonce + device.nonceOffset) % 4294967296)
            + k * (loadAlgorithm ext gpu cfg locals round.job algorithm).1.noncesPerRound)
          % 4294967296 := by
  have hstart : startNonce (loadAlgorithm ext gpu cfg locals round.job algorithm).1 gpu round.job
      round.nonce = some (niceHashNonce round.job.isNiceHash
        ((round.nonce + device.nonceOffset) % 4294967296) round.job.nonce) := by
    simp only [startNonce, hdevice]
  obtain ⟨after, h⟩ := hash_cycle ext gpu threadNumber cfg locals round rounds algorithm _
    hstop halg hstart
  obtain ⟨_, _, c3, c4⟩ := hashLoop_calls
    (loadAlgorithm ext gpu cfg locals round.job algorithm).1.noncesPerRound
    (loadAlgorithm ext gpu cfg locals round.job algorithm).2.1.state.launchParams.noncesPerRun
    (gpuName gpu) round.job round.ticks _ (startNonce_lt _ _ _ _ _ hstart)
  obtain ⟨_, _, l3⟩ := loadAlgorithm_calls ext gpu cfg locals round.job algorithm
  refine ⟨(loadAlgorithm ext gpu cfg locals round.job algorithm).2.2
      ++ [Event.initJob round.job.rawBlob (round.job.rawBlob.take 16)
            (niceHashNonce round.job.isNiceHash
              ((round.nonce + device.nonceOffset) % 4294967296) round.job.nonce)
            round.job.target,
          Event.init], _, after, h, ?_, rfl, c3, c4⟩
  simp [hashCalls_append, l3, hashCalls]

/-- Claim C17 at a worker of the second of two devices, whose batch is 1024
nonces in rounds of 3, on a NiceHash job with the hint `0xAB000000` and the
shared nonce `0x00FFFFFF`: the sum `0x01000000` keeps its low 24 bits, takes
the hint's high byte, and the hash invocations are at `0xAB000000` and
`0xAB000003`. -/
theorem nonce_schedule_witness :
    hashCalls (hash exampleExternals rtx 1 twoDevices Locals.init [niceHashRound]).2 =
      [0xAB000000, 0xAB000003] ∧
    ∃ before inner after,
      (hash exampleExternals rtx 1 twoDevices Locals.init [niceHashRound]).2 =
        before ++ inner ++ after ∧
      hashCalls before = [] ∧
      inner = (hashLoop (loadAlgorithm exampleExternals rtx twoDevices Locals.init
          niceHashRound.job { memory := 512, iterations := 3 }).1.noncesPerRound
        (loadAlgorithm exampleExternals rtx twoDevices Locals.init niceHashRound.job
          { memory := 512, iterations := 3 }).2.1.state.launchParams.noncesPerRun
        (gpuName rtx) niceHashRound.job
        (if niceHashRound.job.isNiceHash then
          (((niceHashRound.nonce + ({ rtx with nonceOffset := 1 } : NvidiaDevice).nonceOffset)
              % 4294967296) &&& 0x00FFFFFF)
            ||| (niceHashRound.job.nonce &&& 0xFF000000)
         else (niceHashRound.nonce + ({ rtx with nonceOffset := 1 } : NvidiaDevice).nonceOffset)
           % 4294967296) niceHashRound.ticks).2 ∧
      (completedBatches niceHashRound.ticks).length ≤ (hashCalls inner).length ∧
      ∀ k n, (hashCalls inner).get? k = some n →
        n = ((if niceHashRound.job.isNiceHash then
                (((niceHashRound.nonce
                    + ({ rtx with nonceOffset := 1 } : NvidiaDevice).nonceOffset)
                    % 4294967296) &&& 0x00FFFFFF)
                  ||| (niceHashRound.job.nonce &&& 0xFF000000)
              else (niceHashRound.nonce
                + ({ rtx with nonceOffset := 1 } : NvidiaDevice).nonceOffset) % 4294967296)
            + k * (loadAlgorithm exampleExternals rtx twoDevices Locals.init niceHashRound.job
                { memory := 512, iterations := 3 }).1.noncesPerRound)
          % 4294967296 :=
  ⟨by decide,
   nonce_schedule exampleExternals rtx 1 twoDevices Locals.init niceHashRound []
     { memory := 512, iterations := 3 } { rtx with nonceOffset := 1 } rfl rfl rfl⟩

/-- Claim C18 on the code, at a NiceHash job whose nonce hint has the high
byte `0xAB`, read with the shared nonce `0x00FFFFFF` in rounds of 1024. The
first hash invocation is at `0xABFFFFFF`, with the pool's high byte; line 185
then adds to the whole 32-bit nonce and the second invocation is at
`0xAC0003FF`, with another high byte. From the shared nonce 0 the same happens
at batch 16385. -/
theorem niceHash_high_byte_lost :
    niceHashJob.isNiceHash = true ∧
    hashCalls (hash exampleExternals exampleDevice 0 exampleConfig Locals.init
      [niceHashRound]).2 = [0xABFFFFFF, 0xAC0003FF] ∧
    0xABFFFFFF / 2 ^ 24 = niceHashJob.nonce / 2 ^ 24 ∧
    0xAC0003FF / 2 ^ 24 ≠ niceHashJob.nonce / 2 ^ 24 ∧
    nonceAt 1024 (niceHashNonce true 0 niceHashJob.nonce) 16384 = 0xAC000000 := by
  decide

/-- For a NiceHash job, hash invocation `k + 1` of the job cycle has the high 8
bits of the job's nonce hint as long as the low 24 bits of the start nonce plus
`k` rounds stay below `2^24`. -/
theorem niceHash_high_byte_until_overflow (noncesPerRound noncesPerRun : Nat) (name : String)
    (job : Job) (ticks : List Tick) (s h k n : Nat) (hh : h < 2 ^ 32)
    (hcall : (hashCalls (hashLoop noncesPerRound noncesPerRun name job (niceHashNonce true s h)
      ticks).2).get? k = some n)
    (hfit : s % 2 ^ 24 + k * noncesPerRound < 2 ^ 24) :
    n / 2 ^ 24 = h / 2 ^ 24 ∧ n % 2 ^ 24 = s % 2 ^ 24 + k * noncesPerRound := by
  have hlt : niceHashNonce true s h < 4294967296 := mask_lt s h
  obtain ⟨_, _, _, hsched⟩ :=
    hashLoop_calls noncesPerRound noncesPerRun name job ticks (niceHashNonce true s h) hlt
  have hn := hsched k n hcall
  have hmod : niceHashNonce true s h % 2 ^ 24 = s % 2 ^ 24 := mask_mod s h
  have hdiv : niceHashNonce true s h / 2 ^ 24 = h / 2 ^ 24 := mask_div s h hh
  rw [hn]
  unfold nonceAt
  generalize niceHashNonce true s h = start at *
  generalize k * noncesPerRound = step at *
  omega

/-- Claim C19: an algorithm name that resolves to a variant other than Chukwa
and ChukwaWrkz makes `getNvidiaMiningAlgorithm` throw, and a worker that loads
a job of that name, with whatever state and current algorithm, is left by that
exception without having made a single call in that pass of the outer loop: no
`freeState`, no `initNonceOffsets`, no `initializeState`, no `initJob`. Chukwa
gives the descriptor (512, 3) and ChukwaWrkz (256, 4). -/
theorem unknown_algorithm_rejected (ext : Externals) (name : String) :
    (∀ other, ext.algorithmNameToCanonical name = Algorithm.Other other →
      getNvidiaMiningAlgorithm ext name = .error "Developer fucked up. Sorry!" ∧
      ∀ (gpu : NvidiaDevice) (threadNumber : Nat) (cfg : HardwareConfig) (locals : Locals)
        (round : Round) (rounds : List Round),
        round.job.algorithm = name → round.shouldStop = false →
        hash ext gpu threadNumber cfg locals (round :: rounds) =
          (Exit.aborted "Developer fucked up. Sorry!", [])) ∧
    (ext.algorithmNameToCanonical name = Algorithm.Chukwa →
      getNvidiaMiningAlgorithm ext name = .ok { memory := 512, iterations := 3 }) ∧
    (ext.algorithmNameToCanonical name = Algorithm.ChukwaWrkz →
      getNvidiaMiningAlgorithm ext name = .ok { memory := 256, iterations := 4 }) := by
  refine ⟨fun other h => ?_, fun h => ?_, fun h => ?_⟩
  · have halg : getNvidiaMiningAlgorithm ext name = .error "Developer fucked up. Sorry!" := by
      simp only [getNvidiaMiningAlgorithm, h]
    refine ⟨halg, ?_⟩
    intro gpu threadNumber cfg locals round rounds hname hstop
    rw [← hname] at halg
    simp only [hash, hstop, Bool.false_eq_true, if_false, halg]
  · simp only [getNvidiaMiningAlgorithm, h]
  · simp only [getNvidiaMiningAlgorithm, h]

/-- Claim C19 at a worker whose second job is of an unknown algorithm: the
calls end with the clearing of the signal, and nothing is freed or
allocated for the second job. -/
theorem unknown_algorithm_rejected_witness :
    hash exampleExternals exampleDevice 0 exampleConfig Locals.init [unknownRound] =
      (Exit.aborted "Developer fucked up. Sorry!", []) ∧
    hash exampleExternals exampleDevice 0 exampleConfig Locals.init
      [switchedRound, unknownRound] =
      (Exit.aborted "Developer fucked up. Sorry!",
        [Event.freeState, Event.initNonceOffsets 512, Event.initializeState 0 512 3,
         Event.initJob [1, 2, 3] [1, 2, 3] 5 4095, Event.init,
         Event.hash 5, Event.incrementHashesPerformed 1024 "GTX-0",
         Event.hash 1029, Event.incrementHashesPerformed 1024 "GTX-0",
         Event.submitValidHash
           { hash := [7], jobID := "42", nonce := 1030, target := 4095,
             hardwareName := "GTX-0" },
         Event.clearNewJobAvailable 0]) :=
  ⟨((unknown_algorithm_rejected exampleExternals "cryptonight").1 0 rfl).2 exampleDevice 0
      exampleConfig Locals.init unknownRound [] rfl rfl,
   by decide⟩

/-- Claim C20: the two lookups of a worker after construction and `start`, for
a device list in which every device's id is its position and a partitioner that
keeps the devices in place. Thread `i` is numbered `i` and bound to the `i`-th
available device; slot `i` of the signal vector exists, is the one `start` set
to false and the one `stop` and `setNewJob` set to true. The device list has
the thread's own device at position `gpu.id`, and after any job-load step the
entry there still has the thread's id and name, so the start nonce is computed
from the offset assigned to the thread's own device. -/
theorem index_consistency (ext : Externals) (hardwareConfig : HardwareConfig)
    (m_shouldStop : Bool) (m_currentJob job : Job) (m_nonce initialNonce : Nat)
    (hid : ∀ i d, hardwareConfig.nvidia.devices.get? i = some d → d.id = i)
    (hkeep : ∀ (cfg : HardwareConfig) (memory i : Nat) (d : NvidiaDevice),
      cfg.nvidia.devices.get? i = some d →
      ∃ offset, (ext.initNonceOffsets cfg memory).nvidia.devices.get? i =
        some { d with nonceOffset := offset }) :
    ∃ after actions,
      start (construct hardwareConfig m_shouldStop m_currentJob m_nonce) job initialNonce =
        some (after, actions) ∧
      ∀ i thread, after.m_threads.get? i = some thread →
        thread.threadNumber = i ∧
        after.m_availableDevices.get? thread.threadNumber = some thread.gpu ∧
        after.m_newJobAvailable.get? thread.threadNumber = some false ∧
        (∃ stopped joined, stop after = some (stopped, joined) ∧
          stopped.m_newJobAvailable.get? thread.threadNumber = some true) ∧
        (∀ job2 nonce2, ∃ published, setNewJob after job2 nonce2 = some published ∧
          published.m_newJobAvailable.get? thread.threadNumber = some true) ∧
        after.m_hardwareConfig.nvidia.devices.get? thread.gpu.id = some thread.gpu ∧
        (∀ (locals : Locals) (loaded : Job) (algorithm : NvidiaHash) (shared : Nat),
          ∃ device,
            (loadAlgorithm ext thread.gpu after.m_hardwareConfig locals loaded
              algorithm).1.nvidia.devices.get? thread.gpu.id = some device ∧
            device.id = thread.gpu.id ∧ device.name = thread.gpu.name ∧
            device.enabled = thread.gpu.enabled ∧
            startNonce (loadAlgorithm ext thread.gpu after.m_hardwareConfig locals loaded
              algorithm).1 thread.gpu loaded shared =
              some (niceHashNonce loaded.isNiceHash
                ((shared + device.nonceOffset) % 4294967296) loaded.nonce)) := by
  refine ⟨_, _, start_eq _ job initialNonce rfl (Or.inl rfl), ?_⟩
  intro i thread hthread
  have hget := threadsFor_get (hardwareConfig.nvidia.devices.filter (fun d => d.enabled)) 0 i
  have hthread' : (threadsFor (hardwareConfig.nvidia.devices.filter (fun d => d.enabled)) 0).get?
      i = some thread := hthread
  rw [hget] at hthread'
  cases hg : (hardwareConfig.nvidia.devices.filter (fun d => d.enabled)).get? i with
  | none => rw [hg] at hthread'; cases hthread'
  | some gpu =>
    rw [hg] at hthread'
    simp only [Option.map_some', Option.some.injEq, Nat.zero_add] at hthread'
    subst hthread'
    have hi : i < (hardwareConfig.nvidia.devices.filter (fun d => d.enabled)).length := by
      rcases Nat.lt_or_ge i (hardwareConfig.nvidia.devices.filter (fun d => d.enabled)).length
        with h | h
      · exact h
      · rw [List.get?_len_le h] at hg; cases hg
    have hmem := List.mem_iff_get?.mpr ⟨i, hg⟩
    simp only [List.mem_filter] at hmem
    obtain ⟨pos, hpos⟩ := List.mem_iff_get?.mp hmem.1
    have hown : hardwareConfig.nvidia.devices.get? gpu.id = some gpu := by
      rw [hid pos gpu hpos]; exact hpos
    refine ⟨rfl, hg, replicate_get _ _ _ hi, ?_, ?_, hown, ?_⟩
    · rw [stop_eq, if_pos (by simp [construct])]
      exact ⟨_, _, rfl, raised_get _ _ _ hi⟩
    · intro job2 nonce2
      rw [setNewJob_eq, if_pos (by simp [construct])]
      exact ⟨_, rfl, raised_get _ _ _ hi⟩
    · intro locals loaded algorithm shared
      have hdev : ∃ device,
          (loadAlgorithm ext gpu hardwareConfig locals loaded algorithm).1.nvidia.devices.get?
            gpu.id = some device ∧
          device.id = gpu.id ∧ device.name = gpu.name ∧ device.enabled = gpu.enabled := by
        unfold loadAlgorithm
        split
        · obtain ⟨offset, ho⟩ := hkeep hardwareConfig algorithm.memory gpu.id gpu hown
          exact ⟨_, ho, rfl, rfl, rfl⟩
        · exact ⟨gpu, hown, rfl, rfl, rfl⟩
      obtain ⟨device, hd, h1, h2, h3⟩ := hdev
      refine ⟨device, hd, h1, h2, h3, ?_⟩
      have hd' : (loadAlgorithm ext gpu (construct hardwareConfig m_shouldStop m_currentJob
          m_nonce).m_hardwareConfig locals loaded algorithm).1.nvidia.devices.get? gpu.id =
          some device := hd
      simp only [startNonce]
      rw [hd']

/-- Claim C20 at three devices of which the second is disabled, with the
modelled partitioner: the second thread is numbered 1 and reads signal slot 1,
its device has id 2 and the offset is read at position 2. -/
theorem index_consistency_witness :
    startedExample.1.m_threads =
      [{ gpu := gtx, threadNumber := 0 },
       { gpu := { enabled := true, name := "RTX", id := 2, nonceOffset := 0 },
         threadNumber := 1 }] ∧
    (initNonceOffsets (fun _ _ => 1024) threeDevices 512).nvidia.devices.map
      (fun d => (d.id, d.nonceOffset)) = [(0, 0), (1, 0), (2, 1024)] ∧
    ∃ after actions,
      start (construct threeDevices false exampleJob 0) exampleJob 7 = some (after, actions) ∧
      ∀ i thread, after.m_threads.get? i = some thread →
        thread.threadNumber = i ∧
        after.m_availableDevices.get? thread.threadNumber = some thread.gpu ∧
        after.m_newJobAvailable.get? thread.threadNumber = some false ∧
        (∃ stopped joined, stop after = some (stopped, joined) ∧
          stopped.m_newJobAvailable.get? thread.threadNumber = some true) ∧
        (∀ job2 nonce2, ∃ published, setNewJob after job2 nonce2 = some published ∧
          published.m_newJobAvailable.get? thread.threadNumber = some true) ∧
        after.m_hardwareConfig.nvidia.devices.get? thread.gpu.id = some thread.gpu ∧
        (∀ (locals : Locals) (loaded : Job) (algorithm : NvidiaHash) (shared : Nat),
          ∃ device,
            (loadAlgorithm partitionedExternals thread.gpu after.m_hardwareConfig locals loaded
              algorithm).1.nvidia.devices.get? thread.gpu.id = some device ∧
            device.id = thread.gpu.id ∧ device.name = thread.gpu.name ∧
            device.enabled = thread.gpu.enabled ∧
            startNonce (loadAlgorithm partitionedExternals thread.gpu after.m_hardwareConfig
              locals loaded algorithm).1 thread.gpu loaded shared =
              some (niceHashNonce loaded.isNiceHash
                ((shared + device.nonceOffset) % 4294967296) loaded.nonce)) :=
  ⟨by decide, by decide,
   index_consistency partitionedExternals threeDevices false exampleJob exampleJob 0 7
     (by
       intro i d h
       match i, h with
       | 0, h => cases h; rfl
       | 1, h => cases h; rfl
       | 2, h => cases h; rfl
       | n + 3, h => cases h)
     (fun cfg memory i d h => initNonceOffsets_preserves (fun _ _ => 1024) cfg memory i d h)⟩

end Nvidia
